import Mathlib

/-!
# lsh: the pipeline engine of `lsh.c`

A shallow embedding of `src/lsh.c` (`main`, `runPgm`, `concat`, `stripwhite`) together with
the part of the POSIX process interface the code relies on (descriptor tables, `dup`, `dup2`,
`close`, `pipe`, `fork`, `waitpid`, `execvp`).  Results of system calls that the program cannot
determine by itself (does `fork` fail, what does `waitpid` return, can a file be opened, ...)
are supplied by an explicit environment record, so that every function below is computable.

Layout: the definitions come first, then the supporting lemmas, then the theorems that settle
the claims C1 to C10 about the program.
-/

namespace Lsh

/-! ## C strings -/

/-- A C string is represented by the list of its characters before the terminating NUL;
`charAt s i` is the C expression `s[i]` for `0 ≤ i ≤ strlen(s)`: the terminator is read at
index `strlen(s)`. -/
def charAt (s : List Char) (i : Nat) : Char := s.getD i (Char.ofNat 0)

/-- The `isspace` test of `<ctype.h>` (C locale): space, `\t`, `\n`, `\v`, `\f`, `\r`. -/
def isspace (c : Char) : Bool := c.toNat == 32 || (9 ≤ c.toNat && c.toNat ≤ 13)

/-- The largest value of the type `int` (32 bits). -/
def INT_MAX : Int := 2147483647

/-- Conversion of an integer value to `int`: the value modulo 2^32, in the range
-2^31 .. 2^31 - 1. -/
def toInt (x : Int) : Int := (x + 2147483648) % 4294967296 - 2147483648

/-- First loop of `stripwhite`, `while (isspace(string[i])) i++;`, with the `int` counter at
`i` and the rest of the buffer from index `i` on: the value of `i` when the loop ends, or
`none` when `i++` overflows (undefined behaviour).  On the empty list the character read is
the terminator, which is not white space. -/
def leadingSpaces : List Char → Int → Option Int
  | [], i => some i
  | c :: rest, i =>
    if isspace c then (if i = INT_MAX then none else leadingSpaces rest (i + 1)) else some i

/-- The call `strcpy(string, string + i)` of line 404: `strlen(string + i) + 1` bytes are
copied from `string + i` to `string`.  When the two areas overlap, that is when
`i < strlen(string + i) + 1`, the behaviour is undefined (`none`); otherwise the buffer
holds the tail of the string. -/
def strcpyTail (string : List Char) (i : Nat) : Option (List Char) :=
  if i < (string.drop i).length + 1 then none else some (string.drop i)

/-- Second loop of `stripwhite`, `while (i > 0 && isspace(string[i])) i--;`, entered with
a non-negative `i`: the value of `i` when the loop ends. -/
def skipTrailing (string : List Char) : Nat → Nat
  | 0 => 0
  | i + 1 => if isspace (charAt string (i + 1)) then skipTrailing string i else i + 1

/-- Lines 406-410 of `stripwhite`, on the buffer the first half left: the content of the
buffer afterwards, or `none` when `++i` overflows or the store `string[++i] = 0` is outside
the buffer (undefined behaviour). -/
def stripTail (string : List Char) : Option (List Char) :=
  -- i = strlen(string) - 1;
  let i : Int := toInt ((string.length : Int) - 1)
  -- while (i > 0 && isspace(string[i])) i--;
  let i : Int := if 0 < i then (skipTrailing string i.toNat : Int) else i
  -- string[++i] = 0;
  if i = INT_MAX then none
  else if i + 1 < 0 then none
  else some (string.take (i + 1).toNat)

/-- The function `stripwhite` of `lsh.c` (lines 397-411), with its `int` index: the content
of the buffer after the call, or `none` when the behaviour of the call is undefined: the
counter overflows, `strcpy` is applied to overlapping areas, or the final store is outside
the buffer. -/
def stripwhite (string : List Char) : Option (List Char) :=
  -- register int i = 0; while (isspace(string[i])) i++;
  match leadingSpaces string 0 with
  | none => none
  | some i =>
    -- if (i) strcpy(string, string + i);
    match (if i ≠ 0 then strcpyTail string i.toNat else some string) with
    | none => none
    | some string => stripTail string

/-- The wording of the specification for `stripwhite`: remove the longest all-white-space
prefix, then the longest all-white-space suffix of what is left. -/
def stripSpec (line : List Char) : List Char :=
  ((line.dropWhile isspace).reverse.dropWhile isspace).reverse

/-! ## Open files and descriptor tables -/

/-- What a descriptor refers to. -/
inductive File where
  /-- an open file the process had when it was started (numbered by the slot it was in) -/
  | inherited (n : Nat)
  /-- the result of `fopen(path, mode)` -/
  | opened (path : String) (mode : String)
  /-- read end of the pipe with the given identity -/
  | pipeRead (id : Nat)
  /-- write end of the pipe with the given identity -/
  | pipeWrite (id : Nat)
  deriving DecidableEq

/-- The descriptor table of a process: slot `n` holds what descriptor `n` refers to, or
`none` when descriptor `n` is closed.  Slots past the end of the list are closed. -/
abbrev FdTable := List (Option File)

/-- The file descriptor `fd` refers to (`none`: `fd` is not an open descriptor). -/
def lookup (t : FdTable) (fd : Int) : Option File :=
  if fd < 0 then none else t.getD fd.toNat none

/-- The lowest-numbered descriptor that is not open. -/
def lowestFree : FdTable → Nat
  | [] => 0
  | none :: _ => 0
  | some _ :: t => lowestFree t + 1

/-- Store `v` in slot `n`, growing the table when needed. -/
def put : FdTable → Nat → Option File → FdTable
  | [], 0, v => [v]
  | [], n + 1, v => none :: put [] n v
  | _ :: t, 0, v => v :: t
  | x :: t, n + 1, v => x :: put t n v

/-- Allocate the lowest free descriptor for the file `f`: the new table and the descriptor. -/
def alloc (t : FdTable) (f : File) : FdTable × Int :=
  (put t (lowestFree t) (some f), (lowestFree t : Int))

/-- The call `dup(fd)`: the new table and the return value (`-1` when `fd` is not open). -/
def dup (t : FdTable) (fd : Int) : FdTable × Int :=
  match lookup t fd with
  | none => (t, -1)
  | some f => alloc t f

/-- The call `dup2(oldfd, newfd)`: fails without effect when `oldfd` is not open or `newfd` is
negative; does nothing when both are equal; otherwise `newfd` is made to refer to the file
of `oldfd` (closing what it referred to before). -/
def dup2 (t : FdTable) (oldfd newfd : Int) : FdTable :=
  match lookup t oldfd with
  | none => t
  | some f => if newfd < 0 then t else if oldfd = newfd then t else put t newfd.toNat (some f)

/-- The call `close(fd)`: fails without effect when `fd` is not an open descriptor. -/
def close (t : FdTable) (fd : Int) : FdTable :=
  match lookup t fd with
  | none => t
  | some _ => put t fd.toNat none

def STDIN_FILENO : Int := 0
def STDOUT_FILENO : Int := 1
def EXIT_FAILURE : Int := 1

/-! ## The parsed command (`parse.h`) -/

/-- Modelled from the spec: `parse.h` is not part of the sources.  A ProgramInvocation (§3)
is "an ordered sequence of argument strings (argv-style, first element is the executable
name)": `arg0` is `pgmlist[0]`, `rest` holds `pgmlist[1]`, `pgmlist[2]`, ... up to the
terminating NULL. -/
structure ProgramInvocation where
  arg0 : String
  rest : List String
  deriving DecidableEq

/-- The whole argument vector `pgmlist`. -/
def ProgramInvocation.argv (p : ProgramInvocation) : List String := p.arg0 :: p.rest

/-- Modelled from the spec: the `Pgm` list of `parse.h` (PipelineStage, §3): a finite,
NULL-terminated singly linked chain with at least one node.  `last p` is a node whose `next`
is NULL, `link p n` a node whose `next` is `n`. -/
inductive Pgm where
  | last (pgmlist : ProgramInvocation)
  | link (pgmlist : ProgramInvocation) (next : Pgm)
  deriving DecidableEq

/-- The field `pgmlist` of a node. -/
def Pgm.pgmlist : Pgm → ProgramInvocation
  | .last p => p
  | .link p _ => p

/-- The field `next` of a node (`none` is NULL). -/
def Pgm.next : Pgm → Option Pgm
  | .last _ => none
  | .link _ n => some n

/-- The stages of a chain, head first. -/
def Pgm.stages : Pgm → List ProgramInvocation
  | .last p => [p]
  | .link p n => p :: n.stages

/-- Modelled from the spec: the `Command` of `parse.h` (Pipeline Descriptor, §3): the head of
the chain, the optional redirection paths and the background flag. -/
structure Command where
  pgm : Pgm
  rstdin : Option String
  rstdout : Option String
  background : Bool
  deriving DecidableEq

/-! ## What a process does -/

/-- Observable actions of a process, in program order. -/
inductive Event where
  /-- the line handed to `parse` -/
  | parse (line : List Char)
  /-- The call `perror(msg)` -/
  | perror (msg : String)
  /-- text written with `printf` -/
  | printf (text : String)
  /-- The call `chdir(path)` (`none`: a NULL pointer) and its return value -/
  | chdir (path : Option String) (ret : Int)
  /-- The call `fopen(path, mode)` and whether a stream was returned -/
  | fopen (path : String) (mode : String) (ok : Bool)
  /-- The call `pipe(fds)` and its return value -/
  | pipe (ret : Int)
  /-- The call `fork()` and its return value in this process -/
  | fork (ret : Int)
  /-- The call `setpgid(pid, pgid)` -/
  | setpgid (pid : Int) (pgid : Int)
  /-- The call `sigaction(SIGCHLD, &sigchld_action, NULL)` -/
  | sigactionCHLD
  /-- The call `waitpid(pid, &status, options)` and its return value; blocking when `options = 0` -/
  | waitpid (pid : Int) (options : Int) (ret : Int)
  /-- The call `execvp(file, argv)`; `ret = none` when the image was replaced (the call never
  returns), `some r` when it returned `r` -/
  | execvp (file : String) (argv : List String) (ret : Option Int)
  /-- The call `exit(code)` -/
  | exit (code : Int)
  deriving DecidableEq

/-- How a process leaves the code of `lsh.c`. -/
inductive Outcome where
  /-- its image was replaced by a successful `execvp` -/
  | execed
  /-- it called `exit(code)` -/
  | exited (code : Int)
  /-- control came back to the caller of `runPgm` -/
  | returned
  deriving DecidableEq

/-- Result of `pipe`: two new descriptors, or failure, in which case the array `fds` keeps
whatever the stack held (`g0`, `g1`). -/
inductive PipeResult where
  | created
  | failed (g0 g1 : Int)
  deriving DecidableEq

/-- Result of `fork`: failure (`-1`), or a new process whose identifier is the positive
number `k + 1`; the new process sees the return value `0`. -/
inductive ForkResult where
  | failed
  | child (k : Nat)
  deriving DecidableEq

/-- Result of `waitpid(pid, &status, 0)` for a positive `pid`: the process was reaped and its
status stored, or the call failed (`-1`, status untouched). -/
inductive WaitResult where
  | reaped (status : Int)
  | failed
  deriving DecidableEq

/-- Result of `execvp`: the image is replaced, or the call fails. -/
inductive ExecResult where
  | replaced
  | failed
  deriving DecidableEq

/-- The return value of `execvp`: none when the image is replaced, `-1` on failure. -/
def execvpRet : ExecResult → Option Int
  | .replaced => none
  | .failed => some (-1)

/-- The return value of `waitpid(pid, &status, 0)`. -/
def waitpidRet (w : WaitResult) (pid : Int) : Int :=
  match w with
  | .reaped _ => pid
  | .failed => -1

/-- The value of the global `status` after `if (waitpid(pid, &status, 0) != pid) status = -1;`. -/
def statusAfterWait (w : WaitResult) (pid : Int) (status : Int) : Int :=
  let status := match w with
    | .reaped st => st
    | .failed => status
  if waitpidRet w pid ≠ pid then -1 else status

/-- What the environment answers to the process that handles the stage at a given depth of
the chain. -/
structure StageEnv where
  pipe : PipeResult
  fork : ForkResult
  wait : WaitResult
  exec : ExecResult
  /-- whether `malloc` in `concat` returns a block -/
  malloc : Bool

/-- One process of a pipeline, as `runPgm` leaves it. -/
structure Proc where
  /-- the stage whose program this process is to execute -/
  stage : ProgramInvocation
  events : List Event
  /-- its descriptor table when it calls `execvp` or `exit` -/
  fds : FdTable
  /-- the globals `pid` and `status` of this process at that moment -/
  pid : Int
  status : Int
  outcome : Outcome
  deriving DecidableEq

/-! ## `concat` and `runPgm` -/

/-- The function `concat` (lines 341-352): the concatenation when `malloc` returns a block;
otherwise it reports and terminates the process itself (the events are returned). -/
def concat (malloc : Bool) (s1 s2 : String) : Except (List Event) String :=
  if malloc then .ok (s1 ++ s2)
  else .error [.perror "Function concat failed!", .exit EXIT_FAILURE]

/-- The statement `if (execvp(pgmlist[0], pgmlist) < 0) { ... exit(EXIT_FAILURE); }` that ends
both branches of `runPgm` (lines 214-219 and 281-286): the events it adds and how the
process leaves it. -/
def execStage (e : StageEnv) (p : ProgramInvocation) : List Event × Outcome :=
  match execvpRet e.exec with
  | none => ([.execvp p.arg0 p.argv none], .execed)
  | some r =>
    if r < 0 then
      match concat e.malloc "Execution of command failed: " p.arg0 with
      | .ok err_msg =>
        ([.execvp p.arg0 p.argv (some r), .perror err_msg, .exit EXIT_FAILURE],
          .exited EXIT_FAILURE)
      | .error evs => (.execvp p.arg0 p.argv (some r) :: evs, .exited EXIT_FAILURE)
    else ([.execvp p.arg0 p.argv (some r)], .returned)

/-- The call `pipe(fds)` of line 231 followed by `read_fd = fds[0]; write_fd = fds[1];`:
the new table, `read_fd`, `write_fd` and the events.  The pipe made at depth `d` of the chain
has identity `d`. -/
def makePipe (r : PipeResult) (d : Nat) (t : FdTable) : FdTable × Int × Int × List Event :=
  match r with
  | .created =>
    let a := alloc t (.pipeRead d)
    let b := alloc a.1 (.pipeWrite d)
    (b.1, a.2, b.2, [.pipe 0])
  | .failed g0 g1 => (t, g0, g1, [.pipe (-1), .perror "Pipe error"])

/-- The function `runPgm` (lines 206-289), run in a process with descriptor table `fds` and
global `status`; `d` counts the stages already passed.  The result lists the process itself
and then every process forked below it, each with what it did; the process for a stage
comes right before the process for the stage's `next`. -/
def runPgm (env : Nat → StageEnv) : Pgm → Nat → FdTable → Int → Int → List Proc
  | .last pgmlist, d, fds, pid, status =>
    -- if (nextPgm->next == NULL)
    let x := execStage (env d) pgmlist
    [{ stage := pgmlist, events := x.1, fds := fds, pid := pid, status := status,
       outcome := x.2 }]
  | .link pgmlist next, d, fds, _, status =>
    let e := env d
    let (t, read_fd, write_fd, evs) := makePipe e.pipe d fds
    match e.fork with
    | .failed =>
      -- if ((pid = fork()) < 0)
      [{ stage := pgmlist,
         events := evs ++ [.fork (-1), .perror "Failed to fork()", .exit EXIT_FAILURE],
         fds := t, pid := -1, status := status, outcome := .exited EXIT_FAILURE }]
    | .child k =>
      let pid : Int := k + 1
      -- the parent (else branch, lines 268-287)
      let tp := close (close (dup2 t read_fd STDIN_FILENO) read_fd) write_fd
      let x := execStage e pgmlist
      let parent : Proc :=
        { stage := pgmlist,
          events := evs ++ [.fork pid, .waitpid pid 0 (waitpidRet e.wait pid)] ++ x.1,
          fds := tp, pid := pid, status := statusAfterWait e.wait pid status,
          outcome := x.2 }
      -- the new process (pid == 0, lines 251-259)
      let tc := close (dup2 t write_fd STDOUT_FILENO) write_fd
      parent :: runPgm env next (d + 1) tc 0 status

/-! ## `main` -/

/-- The state of the shell process: its descriptor table, the locals `saved_stdout` and
`saved_stdin` of `main`, the globals `pid` and `status`, the working directory and the
history list of readline. -/
structure Shell where
  fds : FdTable
  saved_stdout : Int
  saved_stdin : Int
  pid : Int
  status : Int
  cwd : String
  history : List (List Char)
  deriving DecidableEq

/-- What the environment supplies to one iteration of the loop of `main`. -/
structure Input where
  /-- the result of `readline` (`none`: end of input) -/
  line : Option (List Char)
  /-- the result of `getenv("HOME")` -/
  home : Option String
  /-- what the line buffer holds after `stripwhite` when the behaviour of that call is
  undefined (in practice the library routines return and leave a garbled text) -/
  garbled : List Char
  /-- the answer to `chdir(path)` in the working directory `cwd`, as `chdir cwd path`: the
  directory the path leads to, or `none` when it cannot be entered -/
  chdir : String → String → Option String
  /-- whether `fopen(cmd.rstdin, "r")` returns a stream -/
  fopen_in : Bool
  /-- whether `fopen(cmd.rstdout, "w+")` returns a stream -/
  fopen_out : Bool
  fork : ForkResult
  wait : WaitResult
  /-- the environment of the processes of the pipeline -/
  chain : Nat → StageEnv

/-- Whether the shell process goes on after a step. -/
inductive Status where
  /-- the loop continues -/
  | running
  /-- the process ended with this code (`return` from `main` or `exit`) -/
  | exited (code : Int)
  /-- the behaviour is undefined (a null stream was handed to `fileno`) -/
  | undefined
  deriving DecidableEq

/-- The effect of a step of the shell process. -/
structure Result where
  shell : Shell
  events : List Event
  /-- the processes created: the child of the top-level `fork` and those below it -/
  spawned : List Proc
  status : Status
  deriving DecidableEq

/-- The statements of lines 76-82: `saved_stdout = dup(STDOUT_FILENO);` and
`saved_stdin = dup(STDIN_FILENO);` in a process started with table `t0` in directory `cwd`. -/
def startup (t0 : FdTable) (cwd : String) : Shell :=
  let o := dup t0 STDOUT_FILENO
  let i := dup o.1 STDIN_FILENO
  { fds := i.1, saved_stdout := o.2, saved_stdin := i.2, pid := 0, status := 0, cwd := cwd,
    history := [] }

/-- The call `chdir(path)`: the new working directory and the return value.  A null `path`
fails (EFAULT); otherwise `resolve cwd path` says where the path leads. -/
def chdir (resolve : String → String → Option String) (cwd : String) (path : Option String) :
    String × Int :=
  match path with
  | none => (cwd, -1)
  | some p =>
    match resolve cwd p with
    | some dir => (dir, 0)
    | none => (cwd, -1)

/-- The three statements `f = fopen(path, mode); dup2(fileno(f), target); fclose(f);` of
lines 140-143 and 147-150.  `none`: `fopen` returned NULL and `fileno` was applied to it. -/
def redirect (t : FdTable) (path mode : String) (ok : Bool) (target : Int) : Option FdTable :=
  if ok then
    let a := alloc t (.opened path mode)
    some (close (dup2 a.1 a.2 target) a.2)
  else none

/-- Lines 139-144: the redirection of standard input, and the `fopen` event. -/
def redirectIn (t : FdTable) (cmd : Command) (inp : Input) : Option FdTable × List Event :=
  match cmd.rstdin with
  | none => (some t, [])
  | some path => (redirect t path "r" inp.fopen_in STDIN_FILENO, [.fopen path "r" inp.fopen_in])

/-- Lines 146-151: the redirection of standard output, and the `fopen` event. -/
def redirectOut (t : FdTable) (cmd : Command) (inp : Input) : Option FdTable × List Event :=
  match cmd.rstdout with
  | none => (some t, [])
  | some path =>
    (redirect t path "w+" inp.fopen_out STDOUT_FILENO, [.fopen path "w+" inp.fopen_out])

/-- Put `evs` in front of the events of the first process of a list. -/
def prefixEvents (evs : List Event) : List Proc → List Proc
  | [] => []
  | p :: ps => { p with events := evs ++ p.events } :: ps

/-- The branch of `main` that spawns a process for a command (lines 132-189). -/
def spawnCommand (s : Shell) (cmd : Command) (inp : Input) : Result :=
  let a := redirectIn s.fds cmd inp
  match a.1 with
  | none => { shell := s, events := a.2, spawned := [], status := .undefined }
  | some t1 =>
    let b := redirectOut t1 cmd inp
    match b.1 with
    | none =>
      { shell := { s with fds := t1 }, events := a.2 ++ b.2, spawned := [],
        status := .undefined }
    | some t2 =>
      match inp.fork with
      | .failed =>
        -- if ((pid = fork()) < 0)
        { shell := { s with fds := t2, pid := -1 },
          events := a.2 ++ b.2 ++ [.fork (-1), .perror "Failed to fork()", .exit EXIT_FAILURE],
          spawned := [], status := .exited EXIT_FAILURE }
      | .child k =>
        let pid : Int := k + 1
        -- the new process (pid == 0, lines 160-169)
        let procs := runPgm inp.chain cmd.pgm 0 t2 0 s.status
        let procs := if cmd.background then prefixEvents [.setpgid 0 0] procs else procs
        -- the shell (lines 172-188)
        let evs : List Event :=
          if cmd.background then
            [.printf ("Spawned process " ++ toString pid ++ " in background\n"), .sigactionCHLD]
          else [.waitpid pid 0 (waitpidRet inp.wait pid)]
        let status := if cmd.background then s.status else statusAfterWait inp.wait pid s.status
        let t3 := dup2 (dup2 t2 s.saved_stdin STDIN_FILENO) s.saved_stdout STDOUT_FILENO
        { shell := { s with fds := t3, pid := pid, status := status },
          events := a.2 ++ b.2 ++ [.fork pid] ++ evs, spawned := procs, status := .running }

/-- The `cd` branch of `main` (lines 119-129) for the command `cmd`. -/
def changeDirectory (s : Shell) (cmd : Command) (inp : Input) : Result :=
  match cmd.pgm.pgmlist.rest.head? with
  | some path =>
    -- if (cmd.pgm->pgmlist[1] != NULL)
    let c := chdir inp.chdir s.cwd (some path)
    { shell := { s with cwd := c.1 },
      events := .chdir (some path) c.2 :: (if c.2 = -1 then [.perror "cd failed"] else []),
      spawned := [], status := .running }
  | none =>
    -- chdir(getenv("HOME"));
    let c := chdir inp.chdir s.cwd inp.home
    { shell := { s with cwd := c.1 }, events := [.chdir inp.home c.2], spawned := [],
      status := .running }

/-- The content of the line buffer after the call `stripwhite(line)` of line 100: what
`stripwhite` computes, or what the environment left when the behaviour is undefined. -/
def strippedLine (inp : Input) (raw : List Char) : List Char :=
  (stripwhite raw).getD inp.garbled

/-- One iteration of the loop of `main` (lines 86-195).  The parser is not part of the sources
and is a parameter: `parse line` is the command it stores in `cmd`. -/
def loopBody (parse : List Char → Command) (s : Shell) (inp : Input) : Result :=
  match inp.line with
  | none =>
    -- done = 1; the loop ends and main returns 0
    { shell := s, events := [], spawned := [], status := .exited 0 }
  | some raw =>
    -- stripwhite(line);
    let line := strippedLine inp raw
    -- if (*line)
    if line ≠ [] then
      -- add_history(line);
      let s := { s with history := s.history ++ [line] }
      let cmd := parse line
      if cmd.pgm.pgmlist.arg0 = "exit" then
        { shell := s, events := [.parse line], spawned := [], status := .exited 0 }
      else if cmd.pgm.pgmlist.arg0 = "cd" then
        let r := changeDirectory s cmd inp
        { r with events := .parse line :: r.events }
      else
        let r := spawnCommand s cmd inp
        { r with events := .parse line :: r.events }
    else { shell := s, events := [], spawned := [], status := .running }

/-- The loop of `main` over the successive answers of the environment; it stops as soon as
the process ends.  Events and spawned processes accumulate. -/
def mainLoop (parse : List Char → Command) : Shell → List Input → Result
  | s, [] => { shell := s, events := [], spawned := [], status := .running }
  | s, inp :: rest =>
    let r := loopBody parse s inp
    match r.status with
    | .running =>
      let r2 := mainLoop parse r.shell rest
      { r2 with events := r.events ++ r2.events, spawned := r.spawned ++ r2.spawned }
    | _ => r

/-- The function `main`, started with descriptor table `t0` in directory `cwd`. -/
def main (parse : List Char → Command) (t0 : FdTable) (cwd : String) (inputs : List Input) :
    Result :=
  mainLoop parse (startup t0 cwd) inputs

/-! ## Data flow in a two-stage pipeline

The two processes `runPgm` leaves for a chain of two stages, together with the kernel pipe
between them: a write blocks while the pipe has no room, a read from an empty pipe blocks
while a write end is open and returns end of file once none is.  Whether the pipe has room
for one more byte is the kernel's business (it depends on its page slots and on the sizes
of the writes, not only on the number of bytes held): `room buf` is its answer when the
pipe holds `buf`.  The producer's program writes `pending` to its standard output and
terminates; the consumer's program reads its standard input until end of file. -/

/-- The state of the pipeline. -/
structure Flow where
  /-- events of `runPgm` the process that is to run the consumer has not performed yet -/
  script : List Event
  /-- the consumer's program is running -/
  consuming : Bool
  /-- bytes the producer's program has still to write -/
  pending : List Nat
  /-- the producer has terminated -/
  producerExited : Bool
  /-- bytes in the pipe -/
  buf : List Nat
  /-- bytes the consumer's program has read -/
  got : List Nat
  /-- the consumer's program has read end of file -/
  eof : Bool
  deriving DecidableEq

/-- The next step of the process that is to run the consumer, if it can take one: a blocking
`waitpid` that is to return `pid` returns once the producer has terminated, a failing one at
once; a successful `execvp` starts the consumer's program; anything else just happens. -/
def scriptStep (s : Flow) : List Flow :=
  match s.script with
  | [] => []
  | .waitpid pid _ ret :: rest =>
    if ret = pid then (if s.producerExited then [{ s with script := rest }] else [])
    else [{ s with script := rest }]
  | .execvp _ _ none :: _ => [{ s with script := [], consuming := true }]
  | _ :: rest => [{ s with script := rest }]

/-- The producer's program writes one more byte, when the pipe has room. -/
def writeStep (room : List Nat → Bool) (s : Flow) : List Flow :=
  match s.pending with
  | [] => []
  | b :: rest => if room s.buf then [{ s with pending := rest, buf := s.buf ++ [b] }] else []

/-- The producer terminates when it has written everything; this closes its write end. -/
def exitStep (s : Flow) : List Flow :=
  if s.pending = [] ∧ s.producerExited = false then [{ s with producerExited := true }] else []

/-- The consumer's program reads a byte, or end of file when the pipe is empty and no write
end is open any more. -/
def readStep (s : Flow) : List Flow :=
  if s.consuming then
    match s.buf with
    | b :: rest => [{ s with buf := rest, got := s.got ++ [b] }]
    | [] => if s.producerExited ∧ s.eof = false then [{ s with eof := true }] else []
  else []

/-- All the states the pipeline can move to in one step. -/
def succs (room : List Nat → Bool) (s : Flow) : List Flow :=
  scriptStep s ++ writeStep room s ++ exitStep s ++ readStep s

/-- The pipeline can get from `s` to `t`. -/
def Reaches (room : List Nat → Bool) (s t : Flow) : Prop :=
  Relation.ReflTransGen (fun a b => b ∈ succs room a) s t

/-- The pipe never holds more than `cap` bytes: it has no room once it holds `cap`. -/
def HoldsAtMost (cap : Nat) (room : List Nat → Bool) : Prop :=
  ∀ buf, room buf = true → buf.length < cap

/-- The pipe takes the whole of `payload` while nothing is read from it: holding any proper
initial part of it, it has room for the next byte. -/
def Accepts (room : List Nat → Bool) (payload : List Nat) : Prop :=
  ∀ n, n < payload.length → room (payload.take n) = true

/-- A pipe that has room exactly while it holds fewer than `cap` bytes. -/
def bytePipe (cap : Nat) : List Nat → Bool := fun buf => decide (buf.length < cap)

/-- The pipeline `runPgm` sets up, when its result `procs` is a consumer and a producer
joined by pipe 0 (the producer's standard output is the write end, the consumer's standard
input the read end, the consumer holds no write end and the producer's program is running),
with `payload` the bytes the producer's program writes. -/
def flowInit (procs : List Proc) (payload : List Nat) : Option Flow :=
  match procs with
  | [consumer, producer] =>
    if lookup consumer.fds STDIN_FILENO = some (.pipeRead 0)
        ∧ lookup producer.fds STDOUT_FILENO = some (.pipeWrite 0)
        ∧ some (File.pipeWrite 0) ∉ consumer.fds
        ∧ producer.outcome = .execed then
      some { script := consumer.events, consuming := false, pending := payload,
             producerExited := false, buf := [], got := [], eof := false }
    else none
  | _ => none

/-! ## Concrete inputs used by the worked examples -/

/-- The descriptor table of a process started from a terminal: 0, 1 and 2 open. -/
def stdTable : FdTable := [some (.inherited 0), some (.inherited 1), some (.inherited 2)]

/-- An environment in which every call succeeds; the forked process gets identifier 100. -/
def okStage : StageEnv :=
  { pipe := .created, fork := .child 99, wait := .reaped 0, exec := .replaced, malloc := true }

/-- The stage `wc`. -/
def progWc : ProgramInvocation := { arg0 := "wc", rest := [] }

/-- The stage `ls`. -/
def progLs : ProgramInvocation := { arg0 := "ls", rest := [] }

/-- The chain the parser builds for `ls | wc`: the list is in reversed order (comment of
`PrintPgm`, lines 379-383), so the head is `wc` and its `next` is `ls`. -/
def lsWc : Pgm := .link progWc (.last progLs)

/-- The reading of "the output of `P` becomes the input of `Q`": the standard output of `P`
is the write end of a pipe whose read end is the standard input of `Q`. -/
def feeds (P Q : Proc) : Prop :=
  ∃ id, lookup P.fds STDOUT_FILENO = some (.pipeWrite id)
    ∧ lookup Q.fds STDIN_FILENO = some (.pipeRead id)

/-- An environment in which `execvp` fails and `malloc` returns no block. -/
def noMemStage : StageEnv :=
  { pipe := .created, fork := .child 99, wait := .reaped 0, exec := .failed, malloc := false }

/-- An environment in which `execvp` fails (and everything else succeeds). -/
def noExecStage : StageEnv :=
  { pipe := .created, fork := .child 99, wait := .reaped 0, exec := .failed, malloc := true }

/-- The process of `ls` in the chain of `ls | wc` when no program can be executed. -/
def lsFailed : Proc :=
  { stage := progLs,
    events := [.execvp "ls" ["ls"] (some (-1)), .perror "Execution of command failed: ls",
      .exit EXIT_FAILURE],
    fds := [some (.inherited 0), some (.pipeWrite 0), some (.inherited 2), some (.pipeRead 0),
      none],
    pid := 0, status := 0, outcome := .exited EXIT_FAILURE }

/-- An environment in which `pipe` fails, leaving 7 and 9 in the array `fds`, and every
other call succeeds. -/
def pipeFailStage : StageEnv :=
  { pipe := .failed 7 9, fork := .child 99, wait := .reaped 0, exec := .replaced,
    malloc := true }

/-! ## Predicates used to state the properties of `main` -/

/-- Every redirection file the command names can be opened, so that `main` gets as far as
its `fork`. -/
def opensSucceed (cmd : Command) (inp : Input) : Prop :=
  (cmd.rstdin ≠ none → inp.fopen_in = true) ∧ (cmd.rstdout ≠ none → inp.fopen_out = true)

/-- The shell's streams are the ones it was started with (table `t0`): descriptors 0 and 1
refer to the files they referred to at start-up, and `saved_stdin` and `saved_stdout` are
further descriptors for the same two files. -/
def StreamsSaved (t0 : FdTable) (s : Shell) : Prop :=
  lookup s.fds STDIN_FILENO = lookup t0 STDIN_FILENO
  ∧ lookup s.fds STDOUT_FILENO = lookup t0 STDOUT_FILENO
  ∧ lookup s.fds s.saved_stdin = lookup t0 STDIN_FILENO
  ∧ lookup s.fds s.saved_stdout = lookup t0 STDOUT_FILENO
  ∧ s.saved_stdin ≠ 0 ∧ s.saved_stdin ≠ 1 ∧ s.saved_stdout ≠ 0 ∧ s.saved_stdout ≠ 1

/-! ## Concrete command lines used by the worked examples -/

/-- The command of `sleep 5 &`. -/
def cmdSleep : Command :=
  { pgm := .last { arg0 := "sleep", rest := ["5"] }, rstdin := none, rstdout := none,
    background := true }

/-- The command of `ls | wc > out`. -/
def cmdLsWc : Command :=
  { pgm := lsWc, rstdin := none, rstdout := some "out", background := false }

/-- The command of `cat < /nonexistent`. -/
def cmdCat : Command :=
  { pgm := .last { arg0 := "cat", rest := [] }, rstdin := some "/nonexistent",
    rstdout := none, background := false }

/-- The command of `cd`. -/
def cmdCd : Command :=
  { pgm := .last { arg0 := "cd", rest := [] }, rstdin := none, rstdout := none,
    background := false }

/-- A stand-in for the parser on the four lines of the examples. -/
def parseDemo (line : List Char) : Command :=
  if line = "sleep 5 &".toList then cmdSleep
  else if line = "cat < /nonexistent".toList then cmdCat
  else if line = "cd".toList then cmdCd
  else cmdLsWc

/-- An iteration that reads `line` in an environment where every call succeeds; the process
forked by the shell gets identifier 42. -/
def inputOk (line : String) : Input :=
  { line := some line.toList, home := some "/home/user", garbled := "ls--l".toList,
    chdir := fun _ path => some path, fopen_in := true, fopen_out := true, fork := .child 41,
    wait := .reaped 0, chain := fun _ => okStage }

/-- An iteration that reads `line` in an environment where no file can be opened and no
directory entered. -/
def inputNoFile (line : String) : Input :=
  { line := some line.toList, home := some "/nonexistent", garbled := "ls--l".toList,
    chdir := fun _ _ => none, fopen_in := false, fopen_out := false, fork := .child 41,
    wait := .reaped 0, chain := fun _ => okStage }

/-! ## Invariants of the two-stage pipeline -/

/-- While the consumer's process is still on its way to `execvp`: nothing has been read, the
producer has not terminated, and what the producer has written sits in the pipe. -/
def BeforeWait (pid : Int) (file : String) (argv : List String) (cap : Nat)
    (payload : List Nat) (s : Flow) : Prop :=
  (s.script = [.pipe 0, .fork pid, .waitpid pid 0 pid, .execvp file argv none]
    ∨ s.script = [.fork pid, .waitpid pid 0 pid, .execvp file argv none]
    ∨ s.script = [.waitpid pid 0 pid, .execvp file argv none])
  ∧ s.consuming = false ∧ s.producerExited = false ∧ s.got = [] ∧ s.eof = false
  ∧ s.buf ++ s.pending = payload ∧ s.buf.length ≤ cap

/-- What holds all along a run of the pipeline: no byte is lost, duplicated or reordered;
the consumer's program runs only once the producer has terminated; the producer terminates
only when it has written everything; end of file is read only from an empty pipe. -/
def FlowInv (pid : Int) (file : String) (argv : List String) (payload : List Nat)
    (s : Flow) : Prop :=
  s.got ++ s.buf ++ s.pending = payload
  ∧ ((s.script = [.pipe 0, .fork pid, .waitpid pid 0 pid, .execvp file argv none]
        ∨ s.script = [.fork pid, .waitpid pid 0 pid, .execvp file argv none]
        ∨ s.script = [.waitpid pid 0 pid, .execvp file argv none]) ∧ s.consuming = false
      ∨ s.script = [.execvp file argv none] ∧ s.consuming = false ∧ s.producerExited = true
      ∨ s.script = [] ∧ s.consuming = true ∧ s.producerExited = true)
  ∧ (s.producerExited = true → s.pending = [])
  ∧ (s.consuming = false → s.got = [] ∧ s.eof = false)
  ∧ (s.eof = true → s.buf = [])

/-- A bound on the number of steps the pipeline can still take. -/
def flowMeasure (s : Flow) : Nat :=
  2 * s.pending.length + s.buf.length + s.script.length
    + (if s.producerExited then 0 else 1) + (if s.eof then 0 else 1)

/-! # Supporting lemmas -/

/-! ## `stripwhite` -/

theorem drop_takeWhile_length (s : List Char) :
    s.drop (s.takeWhile isspace).length = s.dropWhile isspace := by
  induction s with
  | nil => rfl
  | cons c rest ih =>
    by_cases h : isspace c = true
    · simp [List.takeWhile_cons, List.dropWhile_cons, h, ih]
    · simp [List.takeWhile_cons, List.dropWhile_cons, h]

/-- As long as the counter stays within `int`, the first loop counts the leading white
space. -/
theorem leadingSpaces_eq (s : List Char) :
    ∀ i : Int, i + (s.takeWhile isspace).length ≤ INT_MAX →
      leadingSpaces s i = some (i + (s.takeWhile isspace).length) := by
  induction s with
  | nil => intro i _; simp [leadingSpaces]
  | cons c rest ih =>
    intro i hi
    by_cases h : isspace c = true
    · simp only [List.takeWhile_cons, h, if_true, List.length_cons, Nat.cast_add,
        Nat.cast_one] at hi ⊢
      have hne : i ≠ INT_MAX := by omega
      simp only [leadingSpaces, h, if_true, hne, if_false]
      rw [ih (i + 1) (by omega)]
      congr 1
      omega
    · simp [leadingSpaces, List.takeWhile_cons, h]

theorem skipTrailing_append (u v : List Char) (i : Nat) (h : i < u.length) :
    skipTrailing (u ++ v) i = skipTrailing u i := by
  induction i with
  | zero => rfl
  | succ n ih =>
    have hn : n < u.length := by omega
    have hg : charAt (u ++ v) (n + 1) = charAt u (n + 1) := by
      simp [charAt, List.getD_eq_getElem?_getD, List.getElem?_append_left h]
    simp [skipTrailing, hg, ih hn]

theorem skipTrailing_le (s : List Char) (i : Nat) : skipTrailing s i ≤ i := by
  induction i with
  | zero => simp [skipTrailing]
  | succ n ih =>
    simp only [skipTrailing]
    split <;> omega

/-- The second half of `stripwhite` on a buffer that does not begin with white space. -/
theorem take_skipTrailing (t : List Char) (hne : t ≠ [])
    (hhead : ∀ c, t.head? = some c → isspace c = false) :
    t.take (skipTrailing t (t.length - 1) + 1) = (t.reverse.dropWhile isspace).reverse := by
  induction t using List.reverseRecOn with
  | nil => exact absurd rfl hne
  | append_singleton u c ih =>
    by_cases hu : u = []
    · subst hu
      have hc : isspace c = false := hhead c rfl
      simp [skipTrailing, hc]
    · have hlen : 0 < u.length := List.length_pos.mpr hu
      have hhead2 : ∀ d, u.head? = some d → isspace d = false := by
        intro d hd
        apply hhead
        cases u with
        | nil => exact absurd rfl hu
        | cons a u2 => simpa using hd
      have e1 : (u ++ [c]).length - 1 = (u.length - 1) + 1 := by simp; omega
      by_cases hc : isspace c = true
      · have hget : charAt (u ++ [c]) (u.length - 1 + 1) = c := by
          have : u.length - 1 + 1 = u.length := by omega
          simp [charAt, this, List.getD_eq_getElem?_getD]
        rw [e1]
        simp only [skipTrailing, hget, hc, if_true]
        rw [skipTrailing_append u [c] _ (by omega)]
        have hle := skipTrailing_le u (u.length - 1)
        rw [List.take_append_of_le_length (by omega), ih hu hhead2]
        simp [List.dropWhile_cons, hc]
      · have hget : charAt (u ++ [c]) (u.length - 1 + 1) = c := by
          have : u.length - 1 + 1 = u.length := by omega
          simp [charAt, this, List.getD_eq_getElem?_getD]
        rw [e1]
        simp only [skipTrailing, hget, hc]
        have : u.length - 1 + 1 + 1 = (u ++ [c]).length := by simp; omega
        simp only [Bool.false_eq_true, if_false]
        rw [this, List.take_length]
        simp [List.dropWhile_cons, hc]

/-- The second half of `stripwhite`, on a buffer within the range of `int` that does not
begin with white space, removes the trailing white space. -/
theorem stripTail_eq (t : List Char) (hlen : (t.length : Int) ≤ INT_MAX)
    (hhead : ∀ c, t.head? = some c → isspace c = false) :
    stripTail t = some ((t.reverse.dropWhile isspace).reverse) := by
  unfold stripTail
  unfold INT_MAX at hlen ⊢
  by_cases hne : t = []
  · subst hne; simp [toInt]
  · have hpos : 0 < t.length := List.length_pos.mpr hne
    have key := take_skipTrailing t hne hhead
    have hle := skipTrailing_le t (t.length - 1)
    have hw : toInt ((t.length : Int) - 1) = (t.length : Int) - 1 := by
      unfold toInt; omega
    rw [hw]
    by_cases h1 : (0 : Int) < (t.length : Int) - 1
    · simp only [h1, if_true]
      have e1 : ((t.length : Int) - 1).toNat = t.length - 1 := by omega
      rw [e1]
      have e2 : ((skipTrailing t (t.length - 1) : Nat) : Int) ≠ 2147483647 := by omega
      have e3 : ¬ ((skipTrailing t (t.length - 1) : Nat) : Int) + 1 < 0 := by omega
      have e4 : (((skipTrailing t (t.length - 1) : Nat) : Int) + 1).toNat
          = skipTrailing t (t.length - 1) + 1 := by omega
      rw [if_neg e2, if_neg e3, e4, key]
    · simp only [h1, if_false]
      have hl : t.length = 1 := by omega
      have e2 : (t.length : Int) - 1 ≠ 2147483647 := by omega
      have e3 : ¬ (t.length : Int) - 1 + 1 < 0 := by omega
      have e4 : ((t.length : Int) - 1 + 1).toNat = skipTrailing t (t.length - 1) + 1 := by
        simp [hl, skipTrailing]
      rw [if_neg e2, if_neg e3, e4, key]

/-- Where the behaviour of `stripwhite` is defined, on a line within the range of `int`, the
buffer holds what the specification words say. -/
theorem stripwhite_some (s t : List Char) (hlen : (s.length : Int) ≤ INT_MAX)
    (h : stripwhite s = some t) : t = stripSpec s := by
  have hc : ((s.takeWhile isspace).length : Int) ≤ s.length := by
    have := (List.takeWhile_sublist (p := isspace) (l := s)).length_le
    omega
  have hls := leadingSpaces_eq s 0 (by omega)
  have hd := drop_takeWhile_length s
  have hhead : ∀ c, (s.dropWhile isspace).head? = some c → isspace c = false := by
    intro c hc
    have := List.head?_dropWhile_not isspace s
    rw [hc] at this
    simpa using this
  have hdl : ((s.dropWhile isspace).length : Int) ≤ INT_MAX := by
    have := (List.dropWhile_sublist isspace (l := s)).length_le
    omega
  have htail := stripTail_eq (s.dropWhile isspace) hdl hhead
  unfold stripwhite at h
  rw [hls] at h
  simp only [zero_add] at h
  by_cases h0 : (s.takeWhile isspace).length = 0
  · have hs : s.dropWhile isspace = s := by rw [← hd, h0]; rfl
    simp only [h0, Nat.cast_zero, ne_eq, not_true_eq_false, if_false] at h
    rw [hs] at htail
    rw [htail] at h
    unfold stripSpec
    rw [hs]
    exact (Option.some.inj h).symm
  · have hne : ((s.takeWhile isspace).length : Int) ≠ 0 := by omega
    simp only [hne, ne_eq, not_false_eq_true, if_true, Int.toNat_ofNat, strcpyTail, hd] at h
    by_cases hov : (s.takeWhile isspace).length < (s.dropWhile isspace).length + 1
    · simp [hov] at h
    · simp only [hov, if_false] at h
      rw [htail] at h
      exact (Option.some.inj h).symm

/-- On a line within the range of `int` that does not begin with white space the behaviour
of `stripwhite` is defined. -/
theorem stripwhite_no_leading (s : List Char) (hlen : (s.length : Int) ≤ INT_MAX)
    (hhead : ∀ c, s.head? = some c → isspace c = false) :
    stripwhite s = some (stripSpec s) := by
  have htw : s.takeWhile isspace = [] := by
    cases s with
    | nil => rfl
    | cons c rest => simp [List.takeWhile_cons, hhead c rfl]
  have hdw : s.dropWhile isspace = s := by
    cases s with
    | nil => rfl
    | cons c rest => simp [List.dropWhile_cons, hhead c rfl]
  have hls := leadingSpaces_eq s 0 (by rw [htw]; unfold INT_MAX; simp)
  rw [htw] at hls
  unfold stripwhite
  rw [hls]
  simp only [List.length_nil, Nat.cast_zero, add_zero, ne_eq, not_true_eq_false, if_false]
  rw [stripTail_eq s hlen hhead]
  unfold stripSpec
  rw [hdw]

/-- Whenever the line begins with white space that is no longer than what follows it plus
one, `stripwhite` applies `strcpy` to overlapping areas: its behaviour is undefined. -/
theorem stripwhite_overlap (s : List Char) (hlen : (s.length : Int) ≤ INT_MAX)
    (h0 : 0 < (s.takeWhile isspace).length)
    (hov : (s.takeWhile isspace).length < (s.dropWhile isspace).length + 1) :
    stripwhite s = none := by
  have hc : ((s.takeWhile isspace).length : Int) ≤ s.length := by
    have := (List.takeWhile_sublist (p := isspace) (l := s)).length_le
    omega
  have hls := leadingSpaces_eq s 0 (by omega)
  have hne : ((s.takeWhile isspace).length : Int) ≠ 0 := by omega
  unfold stripwhite
  rw [hls]
  simp [hne, strcpyTail, drop_takeWhile_length, hov]

/-! ## Descriptor tables -/

theorem getD_put (t : FdTable) (n m : Nat) (v : Option File) :
    (put t n v).getD m none = if m = n then v else t.getD m none := by
  induction t generalizing n m with
  | nil =>
    induction n generalizing m with
    | zero => cases m <;> simp [put]
    | succ k ih =>
      cases m with
      | zero => simp [put]
      | succ j => simpa [put, List.getD_eq_getElem?_getD] using ih j
  | cons x t ih =>
    cases n with
    | zero => cases m <;> simp [put]
    | succ k =>
      cases m with
      | zero => simp [put]
      | succ j => simpa [put, List.getD_eq_getElem?_getD] using ih k j

theorem getD_lowestFree (t : FdTable) : t.getD (lowestFree t) none = none := by
  induction t with
  | nil => rfl
  | cons x t ih =>
    cases x with
    | none => rfl
    | some f => simpa [lowestFree] using ih

theorem lookup_ofNat (t : FdTable) (n : Nat) : lookup t (n : Int) = t.getD n none := by
  simp [lookup]

theorem lookup_neg (t : FdTable) (fd : Int) (h : fd < 0) : lookup t fd = none := by
  simp [lookup, h]

theorem lookup_put (t : FdTable) (n : Nat) (v : Option File) (fd : Int) :
    lookup (put t n v) fd = if fd = (n : Int) then v else lookup t fd := by
  unfold lookup
  by_cases h : fd < 0
  · have : fd ≠ (n : Int) := by omega
    simp [h, this]
  · have e : (fd.toNat = n) ↔ (fd = (n : Int)) := by omega
    simp only [h, if_false, getD_put, e]

theorem lookup_lowestFree (t : FdTable) : lookup t (lowestFree t : Int) = none := by
  rw [lookup_ofNat, getD_lowestFree]

/-- After `close(a)` descriptor `a` is closed and the others are as before. -/
theorem lookup_close (t : FdTable) (a fd : Int) :
    lookup (close t a) fd = if fd = a then none else lookup t fd := by
  unfold close
  cases h : lookup t a with
  | none =>
    by_cases e : fd = a
    · subst e; simp [h]
    · simp [e]
  | some f =>
    have ha : ¬ a < 0 := fun hneg => by simp [lookup_neg t a hneg] at h
    have e : ((a.toNat : Nat) : Int) = a := by omega
    simp only [lookup_put, e]

/-- After `dup2(a, b)` descriptor `b` refers to the file of `a` when the call succeeds, and
the others are as before. -/
theorem lookup_dup2 (t : FdTable) (a b fd : Int) :
    lookup (dup2 t a b) fd
      = if fd = b ∧ 0 ≤ b ∧ lookup t a ≠ none then lookup t a else lookup t fd := by
  unfold dup2
  cases h : lookup t a with
  | none => simp
  | some f =>
    by_cases hb : b < 0
    · have : ¬ (0 ≤ b) := by omega
      simp [hb, this]
    · have hb2 : 0 ≤ b := by omega
      by_cases e : a = b
      · subst e
        by_cases e2 : fd = a
        · subst e2; simp [hb, h]
        · simp [hb, e2]
      · have e3 : ((b.toNat : Nat) : Int) = b := by omega
        simp [hb, e, lookup_put, e3, hb2]

/-- The descriptor `alloc` hands out was closed, now refers to the file, and nothing else
changes. -/
theorem lookup_alloc (t : FdTable) (f : File) (fd : Int) :
    lookup (alloc t f).1 fd = if fd = (alloc t f).2 then some f else lookup t fd := by
  simp [alloc, lookup_put]

theorem alloc_fresh (t : FdTable) (f : File) : lookup t (alloc t f).2 = none := by
  simp [alloc, lookup_lowestFree]

theorem alloc_nonneg (t : FdTable) (f : File) : 0 ≤ (alloc t f).2 := by
  simp [alloc]

/-! ## The descriptor tables `runPgm` builds -/

/-- The descriptors of a fresh pipe in a table whose slots 0 and 1 are open: both are new,
distinct, and neither is 0 or 1; the rest of the table is as before. -/
theorem pipe_fds (t : FdTable) (d : Nat) (h0 : lookup t 0 ≠ none) (h1 : lookup t 1 ≠ none)
    (a b : FdTable × Int) (ha : a = alloc t (.pipeRead d)) (hb : b = alloc a.1 (.pipeWrite d)) :
    a.2 ≠ 0 ∧ a.2 ≠ 1 ∧ b.2 ≠ 0 ∧ b.2 ≠ 1 ∧ a.2 ≠ b.2
      ∧ lookup t a.2 = none ∧ lookup t b.2 = none
      ∧ ∀ fd, lookup b.1 fd = if fd = b.2 then some (.pipeWrite d)
          else if fd = a.2 then some (.pipeRead d) else lookup t fd := by
  have fa : lookup t a.2 = none := by rw [ha]; exact alloc_fresh t _
  have fb : lookup a.1 b.2 = none := by rw [hb]; exact alloc_fresh a.1 _
  have la : ∀ fd, lookup a.1 fd = if fd = a.2 then some (.pipeRead d) else lookup t fd := by
    intro fd; rw [ha]; exact lookup_alloc t _ fd
  have lb : ∀ fd, lookup b.1 fd = if fd = b.2 then some (.pipeWrite d) else lookup a.1 fd := by
    intro fd; rw [hb]; exact lookup_alloc a.1 _ fd
  have hab : a.2 ≠ b.2 := by
    intro e
    have := la b.2
    rw [fb, if_pos e.symm] at this
    exact Option.noConfusion this
  have hb0 : lookup t b.2 = none := by
    have := la b.2
    rw [fb, if_neg (fun e => hab e.symm)] at this
    exact this.symm
  refine ⟨?_, ?_, ?_, ?_, hab, fa, hb0, ?_⟩
  · intro e; rw [e] at fa; exact h0 fa
  · intro e; rw [e] at fa; exact h1 fa
  · intro e; rw [e] at hb0; exact h0 hb0
  · intro e; rw [e] at hb0; exact h1 hb0
  · intro fd; rw [lb fd, la fd]

/-- The table of the parent in `runPgm` at its `execvp`: standard input is the read end of
the new pipe, both descriptors of the pipe are closed, everything else is as before. -/
theorem parent_table (t : FdTable) (d : Nat) (h0 : lookup t 0 ≠ none) (h1 : lookup t 1 ≠ none)
    (a b : FdTable × Int) (ha : a = alloc t (.pipeRead d)) (hb : b = alloc a.1 (.pipeWrite d))
    (fd : Int) :
    lookup (close (close (dup2 b.1 a.2 STDIN_FILENO) a.2) b.2) fd
      = if fd = b.2 ∨ fd = a.2 then none
        else if fd = 0 then some (.pipeRead d) else lookup t fd := by
  obtain ⟨a0, a1, b0, b1, hab, fa, fb, lt⟩ := pipe_fds t d h0 h1 a b ha hb
  have hr : lookup b.1 a.2 = some (.pipeRead d) := by
    rw [lt, if_neg hab, if_pos rfl]
  simp only [lookup_close, lookup_dup2, hr, STDIN_FILENO, lt]
  by_cases e1 : fd = b.2
  · simp [e1]
  · by_cases e2 : fd = a.2
    · simp [e2]
    · by_cases e3 : fd = 0
      · subst e3
        simp [Ne.symm b0, Ne.symm a0]
      · simp [e1, e2, e3]

/-- The table of the new process in `runPgm` when it recurses: standard output is the write
end of the new pipe, the write descriptor is closed, the read descriptor is still open, and
everything else is as before. -/
theorem child_table (t : FdTable) (d : Nat) (h0 : lookup t 0 ≠ none) (h1 : lookup t 1 ≠ none)
    (a b : FdTable × Int) (ha : a = alloc t (.pipeRead d)) (hb : b = alloc a.1 (.pipeWrite d))
    (fd : Int) :
    lookup (close (dup2 b.1 b.2 STDOUT_FILENO) b.2) fd
      = if fd = b.2 then none
        else if fd = 1 then some (.pipeWrite d)
        else if fd = a.2 then some (.pipeRead d) else lookup t fd := by
  obtain ⟨a0, a1, b0, b1, hab, fa, fb, lt⟩ := pipe_fds t d h0 h1 a b ha hb
  have hw : lookup b.1 b.2 = some (.pipeWrite d) := by
    rw [lt, if_pos rfl]
  simp only [lookup_close, lookup_dup2, hw, STDOUT_FILENO, lt]
  by_cases e1 : fd = b.2
  · simp [e1]
  · by_cases e2 : fd = 1
    · simp [e1, e2]
    · simp [e1, e2]

/-! ## The processes `runPgm` creates -/

/-- Every process reaches its `execvp` call once it is past `pipe` and `fork`. -/
theorem execvp_mem_execStage (e : StageEnv) (p : ProgramInvocation) :
    Event.execvp p.arg0 p.argv (execvpRet e.exec) ∈ (execStage e p).1 := by
  unfold execStage
  cases hx : e.exec <;> cases hm : e.malloc <;> simp [execvpRet, concat, hm]

/-- The intermediate case of `runPgm` when `pipe` and `fork` succeed. -/
theorem runPgm_link (env : Nat → StageEnv) (p : ProgramInvocation) (next : Pgm) (d k : Nat)
    (fds : FdTable) (pid status : Int)
    (hp : (env d).pipe = .created) (hf : (env d).fork = .child k)
    (a b : FdTable × Int) (ha : a = alloc fds (.pipeRead d))
    (hb : b = alloc a.1 (.pipeWrite d)) :
    ∃ P : Proc, runPgm env (.link p next) d fds pid status
        = P :: runPgm env next (d + 1) (close (dup2 b.1 b.2 STDOUT_FILENO) b.2) 0 status
      ∧ P.stage = p
      ∧ P.events = [.pipe 0] ++ [.fork ((k : Int) + 1),
            .waitpid ((k : Int) + 1) 0 (waitpidRet (env d).wait ((k : Int) + 1))]
            ++ (execStage (env d) p).1
      ∧ P.fds = close (close (dup2 b.1 a.2 STDIN_FILENO) a.2) b.2
      ∧ P.outcome = (execStage (env d) p).2 := by
  subst ha hb
  refine ⟨{ stage := p,
            events := [.pipe 0] ++ [.fork ((k : Int) + 1),
              .waitpid ((k : Int) + 1) 0 (waitpidRet (env d).wait ((k : Int) + 1))]
              ++ (execStage (env d) p).1,
            fds := close (close (dup2 (alloc (alloc fds (.pipeRead d)).1 (.pipeWrite d)).1
              (alloc fds (.pipeRead d)).2 STDIN_FILENO) (alloc fds (.pipeRead d)).2)
              (alloc (alloc fds (.pipeRead d)).1 (.pipeWrite d)).2,
            pid := (k : Int) + 1,
            status := statusAfterWait (env d).wait ((k : Int) + 1) status,
            outcome := (execStage (env d) p).2 }, ?_, rfl, rfl, rfl, rfl⟩
  simp [runPgm, makePipe, hp, hf]

/-- The first process in the result of `runPgm` is the caller itself: it is to execute the
head stage, reaches `execvp` when `pipe` and `fork` succeed, and its standard output is the
one it was started with. -/
theorem runPgm_head (env : Nat → StageEnv) (hp : ∀ d, (env d).pipe = .created)
    (hf : ∀ d, ∃ k, (env d).fork = .child k) (p : Pgm) (d : Nat) (fds : FdTable)
    (pid status : Int) (h0 : lookup fds 0 ≠ none) (h1 : lookup fds 1 ≠ none) :
    ∃ P rest, runPgm env p d fds pid status = P :: rest ∧ P.stage = p.pgmlist
      ∧ lookup P.fds STDOUT_FILENO = lookup fds 1
      ∧ Event.execvp p.pgmlist.arg0 p.pgmlist.argv (execvpRet (env d).exec) ∈ P.events := by
  cases p with
  | last s =>
    exact ⟨_, [], rfl, rfl, rfl, execvp_mem_execStage _ _⟩
  | link s next =>
    obtain ⟨k, hk⟩ := hf d
    obtain ⟨P, hrun, hPs, hPe, hPf, -⟩ :=
      runPgm_link env s next d k fds pid status (hp d) hk _ _ rfl rfl
    refine ⟨P, _, hrun, hPs, ?_, ?_⟩
    · obtain ⟨a0, a1, b0, b1, hab, fa, fb, lt⟩ := pipe_fds fds d h0 h1 _ _ rfl rfl
      rw [hPf]
      simp only [STDOUT_FILENO]
      rw [parent_table fds d h0 h1 _ _ rfl rfl 1]
      simp [Ne.symm b1, Ne.symm a1]
    · rw [hPe]
      simp only [Pgm.pgmlist]
      exact List.mem_append_right _ (execvp_mem_execStage _ _)

/-- Along a chain whose pipes and forks succeed, started with standard input and output
open: there is one process per stage, in chain order, each reaching the `execvp` of its
stage; and for a stage with a `next`, the standard input of its process is the read end of
the pipe whose write end is the standard output of the process of `next`. -/
theorem runPgm_chain (env : Nat → StageEnv) (hp : ∀ d, (env d).pipe = .created)
    (hf : ∀ d, ∃ k, (env d).fork = .child k) (p : Pgm) :
    ∀ (d : Nat) (fds : FdTable) (pid status : Int),
      lookup fds 0 ≠ none → lookup fds 1 ≠ none →
      ∀ (i : Nat) (S N : ProgramInvocation),
        p.stages[i]? = some S → p.stages[i + 1]? = some N →
        ∃ P Q, (runPgm env p d fds pid status)[i]? = some P
          ∧ (runPgm env p d fds pid status)[i + 1]? = some Q
          ∧ P.stage = S ∧ Q.stage = N
          ∧ Event.execvp S.arg0 S.argv (execvpRet (env (d + i)).exec) ∈ P.events
          ∧ Event.execvp N.arg0 N.argv (execvpRet (env (d + i + 1)).exec) ∈ Q.events
          ∧ lookup Q.fds STDOUT_FILENO = some (.pipeWrite (d + i))
          ∧ lookup P.fds STDIN_FILENO = some (.pipeRead (d + i)) := by
  induction p with
  | last s =>
    intro d fds pid status _ _ i S N _ hN
    simp [Pgm.stages] at hN
  | link s next ih =>
    intro d fds pid status h0 h1 i S N hS hN
    obtain ⟨k, hk⟩ := hf d
    obtain ⟨P0, hrun, hPs, hPe, hPf, -⟩ :=
      runPgm_link env s next d k fds pid status (hp d) hk _ _ rfl rfl
    have c0 : lookup (close (dup2 (alloc (alloc fds (.pipeRead d)).1 (.pipeWrite d)).1
        (alloc (alloc fds (.pipeRead d)).1 (.pipeWrite d)).2 STDOUT_FILENO)
        (alloc (alloc fds (.pipeRead d)).1 (.pipeWrite d)).2) 0 ≠ none := by
      obtain ⟨a0, a1, b0, b1, hab, fa, fb, lt⟩ := pipe_fds fds d h0 h1 _ _ rfl rfl
      rw [child_table fds d h0 h1 _ _ rfl rfl 0]
      simpa [Ne.symm b0, Ne.symm a0] using h0
    have c1 : lookup (close (dup2 (alloc (alloc fds (.pipeRead d)).1 (.pipeWrite d)).1
        (alloc (alloc fds (.pipeRead d)).1 (.pipeWrite d)).2 STDOUT_FILENO)
        (alloc (alloc fds (.pipeRead d)).1 (.pipeWrite d)).2) 1 = some (.pipeWrite d) := by
      obtain ⟨a0, a1, b0, b1, hab, fa, fb, lt⟩ := pipe_fds fds d h0 h1 _ _ rfl rfl
      rw [child_table fds d h0 h1 _ _ rfl rfl 1]
      simp [Ne.symm b1]
    cases i with
    | zero =>
      simp only [Pgm.stages, List.getElem?_cons_zero, Option.some.injEq] at hS
      simp only [Pgm.stages, zero_add, List.getElem?_cons_succ] at hN
      obtain ⟨Q, rest, hQ, hQs, hQo, hQe⟩ := runPgm_head env hp hf next (d + 1) _ 0 status c0
        (by rw [c1]; simp)
      have hN2 : next.pgmlist = N := by
        cases next <;> simpa [Pgm.stages, Pgm.pgmlist] using hN
      rw [hrun, hQ]
      refine ⟨P0, Q, by simp, by simp, hPs.trans hS, hQs.trans hN2, ?_, ?_, ?_, ?_⟩
      · subst hS
        rw [hPe]
        exact List.mem_append_right _ (execvp_mem_execStage _ _)
      · rw [← hN2]; exact hQe
      · rw [hQo, c1]; rfl
      · obtain ⟨a0, a1, b0, b1, hab, fa, fb, lt⟩ := pipe_fds fds d h0 h1 _ _ rfl rfl
        have := parent_table fds d h0 h1 _ _ rfl rfl 0
        rw [hPf]
        simp only [STDIN_FILENO] at this ⊢
        rw [this]
        simp [Ne.symm b0, Ne.symm a0]
    | succ j =>
      simp only [Pgm.stages, List.getElem?_cons_succ] at hS hN
      obtain ⟨P, Q, hP, hQ, r⟩ := ih (d + 1) _ 0 status c0 (by rw [c1]; simp) j S N hS hN
      rw [hrun]
      refine ⟨P, Q, by simpa using hP, by simpa using hQ, ?_⟩
      have e1 : d + 1 + j = d + (j + 1) := by omega
      rw [e1] at r
      exact r

/-! ## How a process leaves `runPgm` -/

/-- The `execvp` statement never falls through: the image is replaced, or the process exits
with `EXIT_FAILURE` after reporting; the message names the program unless `concat` could
not allocate it. -/
theorem execStage_ends (e : StageEnv) (p : ProgramInvocation) (pre : List Event)
    (hpre : ∀ r, Event.execvp p.arg0 p.argv (some r) ∉ pre) :
    ((execStage e p).2 = .execed
        ∧ (pre ++ (execStage e p).1).getLast? = some (.execvp p.arg0 p.argv none)
      ∨ (execStage e p).2 = .exited EXIT_FAILURE
        ∧ (pre ++ (execStage e p).1).getLast? = some (.exit EXIT_FAILURE))
    ∧ ∀ r, Event.execvp p.arg0 p.argv (some r) ∈ pre ++ (execStage e p).1 →
        (execStage e p).2 = .exited EXIT_FAILURE
        ∧ Event.perror (if e.malloc then "Execution of command failed: " ++ p.arg0
            else "Function concat failed!") ∈ pre ++ (execStage e p).1 := by
  unfold execStage
  cases hx : e.exec <;> cases hm : e.malloc <;>
    simp [execvpRet, concat, hm, List.getLast?_append] <;>
    intro r hr <;> exact absurd hr (hpre r)

/-- Every process `runPgm` leaves has either replaced its image or exited with
`EXIT_FAILURE`; one whose `execvp` failed has exited with `EXIT_FAILURE` after reporting. -/
theorem runPgm_ends (env : Nat → StageEnv) (p : Pgm) :
    ∀ (d : Nat) (fds : FdTable) (pid status : Int) (i : Nat) (P : Proc),
      (runPgm env p d fds pid status)[i]? = some P →
      (P.outcome = .execed
          ∧ P.events.getLast? = some (.execvp P.stage.arg0 P.stage.argv none)
        ∨ P.outcome = .exited EXIT_FAILURE
          ∧ P.events.getLast? = some (.exit EXIT_FAILURE))
      ∧ ∀ r, Event.execvp P.stage.arg0 P.stage.argv (some r) ∈ P.events →
          P.outcome = .exited EXIT_FAILURE
          ∧ Event.perror (if (env (d + i)).malloc
              then "Execution of command failed: " ++ P.stage.arg0
              else "Function concat failed!") ∈ P.events := by
  induction p with
  | last s =>
    intro d fds pid status i P hP
    cases i with
    | zero =>
      simp only [runPgm, List.getElem?_cons_zero, Option.some.injEq] at hP
      subst hP
      simpa using execStage_ends (env d) s [] (by simp)
    | succ j => simp [runPgm] at hP
  | link s next ih =>
    intro d fds pid status i P hP
    cases hfk : (env d).fork with
    | failed =>
      cases i with
      | zero =>
        cases hpp : (env d).pipe <;>
          simp [runPgm, hfk, hpp, makePipe] at hP <;> subst hP <;> simp
      | succ j =>
        cases hpp : (env d).pipe <;> simp [runPgm, hfk, hpp, makePipe] at hP
    | child k =>
      cases i with
      | zero =>
        cases hpp : (env d).pipe with
        | created =>
          simp [runPgm, hfk, hpp, makePipe] at hP
          subst hP
          simpa using execStage_ends (env d) s
            [.pipe 0, .fork ((k : Int) + 1),
              .waitpid ((k : Int) + 1) 0 (waitpidRet (env d).wait ((k : Int) + 1))] (by simp)
        | failed g0 g1 =>
          simp [runPgm, hfk, hpp, makePipe] at hP
          subst hP
          simpa using execStage_ends (env d) s
            [.pipe (-1), .perror "Pipe error", .fork ((k : Int) + 1),
              .waitpid ((k : Int) + 1) 0 (waitpidRet (env d).wait ((k : Int) + 1))] (by simp)
      | succ j =>
        have e1 : d + (j + 1) = d + 1 + j := by omega
        rw [e1]
        cases hpp : (env d).pipe <;>
          simp [runPgm, hfk, hpp, makePipe] at hP <;>
          exact ih _ _ _ _ j P hP

/-! ## The stripped line -/

theorem stripSpec_eq_rdropWhile (l : List Char) :
    stripSpec l = (l.dropWhile isspace).rdropWhile isspace := rfl

/-- The stripped line is empty exactly when the line is all white space. -/
theorem stripSpec_eq_nil_iff (l : List Char) :
    stripSpec l = [] ↔ ∀ c ∈ l, isspace c = true := by
  rw [stripSpec_eq_rdropWhile, List.rdropWhile_eq_nil_iff]
  constructor
  · intro h
    have hnil : l.dropWhile isspace = [] := by
      by_contra hne
      have hh := List.head?_dropWhile_not isspace l
      cases hd : l.dropWhile isspace with
      | nil => exact hne hd
      | cons a t =>
        rw [hd] at hh h
        have := h a (List.mem_cons_self a t)
        simp [this] at hh
    exact List.dropWhile_eq_nil_iff.mp hnil
  · intro h c hc
    exact h c ((List.dropWhile_sublist isspace).subset hc)

/-- The stripped line does not begin with white space. -/
theorem stripSpec_head (l : List Char) (c : Char) (h : (stripSpec l).head? = some c) :
    isspace c = false := by
  rw [stripSpec_eq_rdropWhile] at h
  have hp : (l.dropWhile isspace).rdropWhile isspace <+: l.dropWhile isspace :=
    List.rdropWhile_prefix isspace _
  obtain ⟨t, ht⟩ := hp
  have hh := List.head?_dropWhile_not isspace l
  cases hr : (l.dropWhile isspace).rdropWhile isspace with
  | nil => rw [hr] at h; simp at h
  | cons a u =>
    rw [hr] at h ht
    simp only [List.head?_cons, Option.some.injEq] at h
    subst h
    rw [← ht] at hh
    simpa using hh

/-- The stripped line does not end with white space. -/
theorem stripSpec_getLast (l : List Char) (c : Char) (h : (stripSpec l).getLast? = some c) :
    isspace c = false := by
  unfold stripSpec at h
  rw [List.getLast?_reverse] at h
  have hh := List.head?_dropWhile_not isspace (l.dropWhile isspace).reverse
  rw [h] at hh
  simpa using hh

/-- A line has a character that is not white space exactly when it is not all white
space. -/
theorem exists_nonspace_iff (l : List Char) :
    (∃ c ∈ l, isspace c = false) ↔ ¬ ∀ c ∈ l, isspace c = true := by
  simp

/-- On a line within the range of `int` that does not begin with white space, the text
`main` goes on with is the line without its trailing white space, as the specification
says. -/
theorem strippedLine_no_leading (inp : Input) (line : List Char)
    (hlen : (line.length : Int) ≤ INT_MAX)
    (hhead : ∀ c, line.head? = some c → isspace c = false) :
    strippedLine inp line = stripSpec line := by
  simp [strippedLine, stripwhite_no_leading line hlen hhead]

/-! ## The events of one iteration of `main` -/

theorem parse_not_mem_spawnCommand (s : Shell) (cmd : Command) (inp : Input)
    (t : List Char) : Event.parse t ∉ (spawnCommand s cmd inp).events := by
  unfold spawnCommand redirectIn redirectOut
  cases cmd.rstdin <;> cases cmd.rstdout <;> cases inp.fopen_in <;> cases inp.fopen_out <;>
    cases inp.fork <;> cases cmd.background <;> simp [redirect]

theorem parse_not_mem_changeDirectory (s : Shell) (cmd : Command) (inp : Input)
    (t : List Char) : Event.parse t ∉ (changeDirectory s cmd inp).events := by
  unfold changeDirectory
  cases cmd.pgm.pgmlist.rest.head? <;> simp

theorem history_spawnCommand (s : Shell) (cmd : Command) (inp : Input) :
    (spawnCommand s cmd inp).shell.history = s.history := by
  unfold spawnCommand redirectIn redirectOut
  cases cmd.rstdin <;> cases cmd.rstdout <;> cases inp.fopen_in <;> cases inp.fopen_out <;>
    cases inp.fork <;> simp [redirect]

theorem history_changeDirectory (s : Shell) (cmd : Command) (inp : Input) :
    (changeDirectory s cmd inp).shell.history = s.history := by
  unfold changeDirectory
  cases cmd.pgm.pgmlist.rest.head? <;> simp

/-! ## The shell's own descriptors -/

/-- The statements of `startup` save the two standard streams. -/
theorem startup_saved (t0 : FdTable) (cwd : String) (h0 : lookup t0 0 ≠ none)
    (h1 : lookup t0 1 ≠ none) : StreamsSaved t0 (startup t0 cwd) := by
  obtain ⟨f0, hf0⟩ := Option.ne_none_iff_exists'.mp h0
  obtain ⟨f1, hf1⟩ := Option.ne_none_iff_exists'.mp h1
  have e1 : dup t0 1 = alloc t0 f1 := by simp [dup, hf1]
  have fa : lookup t0 (alloc t0 f1).2 = none := alloc_fresh t0 f1
  have la := lookup_alloc t0 f1
  have a0 : (alloc t0 f1).2 ≠ 0 := by intro e; rw [e] at fa; exact h0 fa
  have a1 : (alloc t0 f1).2 ≠ 1 := by intro e; rw [e] at fa; exact h1 fa
  have l0 : lookup (alloc t0 f1).1 0 = some f0 := by rw [la, if_neg (Ne.symm a0), hf0]
  have l1 : lookup (alloc t0 f1).1 1 = some f1 := by rw [la, if_neg (Ne.symm a1), hf1]
  have e2 : dup (alloc t0 f1).1 0 = alloc (alloc t0 f1).1 f0 := by
    simp [dup, l0]
  have fb : lookup (alloc t0 f1).1 (alloc (alloc t0 f1).1 f0).2 = none := alloc_fresh _ f0
  have lb := lookup_alloc (alloc t0 f1).1 f0
  have b0 : (alloc (alloc t0 f1).1 f0).2 ≠ 0 := by intro e; rw [e, l0] at fb; simp at fb
  have b1 : (alloc (alloc t0 f1).1 f0).2 ≠ 1 := by intro e; rw [e, l1] at fb; simp at fb
  have ab : (alloc t0 f1).2 ≠ (alloc (alloc t0 f1).1 f0).2 := by
    intro e
    rw [← e, la, if_pos rfl] at fb
    simp at fb
  unfold StreamsSaved startup
  simp only [STDIN_FILENO, STDOUT_FILENO, e1, e2]
  refine ⟨?_, ?_, ?_, ?_, b0, b1, a0, a1⟩
  · rw [lb, if_neg (Ne.symm b0), l0, hf0]
  · rw [lb, if_neg (Ne.symm b1), l1, hf1]
  · rw [lb, if_pos rfl, hf0]
  · rw [lb, if_neg ab, la, if_pos rfl, hf1]

/-- A redirection leaves every open descriptor other than its target as it was. -/
theorem redirect_keeps (t t2 : FdTable) (path mode : String) (ok : Bool) (target fd : Int)
    (h : redirect t path mode ok target = some t2) (hfd : fd ≠ target)
    (hopen : lookup t fd ≠ none) : lookup t2 fd = lookup t fd := by
  unfold redirect at h
  cases ok with
  | false => simp at h
  | true =>
    simp only [if_true, Option.some.injEq] at h
    subst h
    have fa : lookup t (alloc t (.opened path mode)).2 = none := alloc_fresh _ _
    have hne : fd ≠ (alloc t (.opened path mode)).2 := by
      intro e; rw [← e] at fa; exact hopen fa
    rw [lookup_close, if_neg hne, lookup_dup2]
    have : ¬ (fd = target ∧ 0 ≤ target ∧
        lookup (alloc t (.opened path mode)).1 (alloc t (.opened path mode)).2 ≠ none) :=
      fun h => hfd h.1
    rw [if_neg this, lookup_alloc, if_neg hne]

/-- Restoring with `dup2(saved_stdin, 0); dup2(saved_stdout, 1);` rebinds both standard
streams to the saved files and keeps the saved descriptors. -/
theorem restore_streams (t : FdTable) (si so : Int) (fi fo : Option File)
    (hi : lookup t si = fi) (ho : lookup t so = fo) (hin : fi ≠ none) (hon : fo ≠ none)
    (i0 : si ≠ 0) (i1 : si ≠ 1) (o0 : so ≠ 0) (o1 : so ≠ 1) :
    lookup (dup2 (dup2 t si STDIN_FILENO) so STDOUT_FILENO) 0 = fi
    ∧ lookup (dup2 (dup2 t si STDIN_FILENO) so STDOUT_FILENO) 1 = fo
    ∧ lookup (dup2 (dup2 t si STDIN_FILENO) so STDOUT_FILENO) si = fi
    ∧ lookup (dup2 (dup2 t si STDIN_FILENO) so STDOUT_FILENO) so = fo := by
  subst hi ho
  simp only [lookup_dup2, STDIN_FILENO, STDOUT_FILENO]
  simp [i0, i1, o0, o1, hin, hon]

theorem redirectIn_keeps (t t1 : FdTable) (cmd : Command) (inp : Input) (fd : Int)
    (h : (redirectIn t cmd inp).1 = some t1) (hfd : fd ≠ 0) (hopen : lookup t fd ≠ none) :
    lookup t1 fd = lookup t fd := by
  unfold redirectIn at h
  cases hr : cmd.rstdin with
  | none => simp [hr] at h; rw [h]
  | some path =>
    simp only [hr] at h
    exact redirect_keeps t t1 path "r" inp.fopen_in STDIN_FILENO fd h hfd hopen

theorem redirectOut_keeps (t t1 : FdTable) (cmd : Command) (inp : Input) (fd : Int)
    (h : (redirectOut t cmd inp).1 = some t1) (hfd : fd ≠ 1) (hopen : lookup t fd ≠ none) :
    lookup t1 fd = lookup t fd := by
  unfold redirectOut at h
  cases hr : cmd.rstdout with
  | none => simp [hr] at h; rw [h]
  | some path =>
    simp only [hr] at h
    exact redirect_keeps t t1 path "w+" inp.fopen_out STDOUT_FILENO fd h hfd hopen

theorem redirectIn_ok (t : FdTable) (cmd : Command) (inp : Input)
    (h : cmd.rstdin ≠ none → inp.fopen_in = true) : ∃ t1, (redirectIn t cmd inp).1 = some t1 := by
  unfold redirectIn
  cases hr : cmd.rstdin with
  | none => exact ⟨t, rfl⟩
  | some path =>
    have := h (by simp [hr])
    simp [redirect, this]

theorem redirectOut_ok (t : FdTable) (cmd : Command) (inp : Input)
    (h : cmd.rstdout ≠ none → inp.fopen_out = true) :
    ∃ t1, (redirectOut t cmd inp).1 = some t1 := by
  unfold redirectOut
  cases hr : cmd.rstdout with
  | none => exact ⟨t, rfl⟩
  | some path =>
    have := h (by simp [hr])
    simp [redirect, this]

/-- When the redirection files can be opened and `fork` succeeds, the shell goes on. -/
theorem spawnCommand_running (s : Shell) (cmd : Command) (inp : Input) (k : Nat)
    (ho : opensSucceed cmd inp) (hf : inp.fork = .child k) :
    (spawnCommand s cmd inp).status = .running := by
  obtain ⟨t1, h1⟩ := redirectIn_ok s.fds cmd inp ho.1
  obtain ⟨t2, h2⟩ := redirectOut_ok t1 cmd inp ho.2
  simp [spawnCommand, h1, h2, hf]

/-- Whenever the shell goes on after the spawning branch, its standard streams are the
saved ones again. -/
theorem spawnCommand_saved (t0 : FdTable) (s : Shell) (cmd : Command) (inp : Input)
    (h0 : lookup t0 0 ≠ none) (h1 : lookup t0 1 ≠ none) (hs : StreamsSaved t0 s)
    (hr : (spawnCommand s cmd inp).status = .running) :
    StreamsSaved t0 (spawnCommand s cmd inp).shell := by
  obtain ⟨s0, s1, si, so, i0, i1, o0, o1⟩ := hs
  simp only [STDIN_FILENO, STDOUT_FILENO] at s0 s1 si so
  unfold spawnCommand at hr ⊢
  cases ha : (redirectIn s.fds cmd inp).1 with
  | none => simp [ha] at hr
  | some t1 =>
    cases hb : (redirectOut t1 cmd inp).1 with
    | none => simp [ha, hb] at hr
    | some t2 =>
      cases hf : inp.fork with
      | failed => simp [ha, hb, hf] at hr
      | child k =>
        have ki : lookup t1 s.saved_stdin = lookup t0 0 := by
          rw [redirectIn_keeps s.fds t1 cmd inp _ ha i0 (by rw [si]; exact h0), si]
        have ko : lookup t1 s.saved_stdout = lookup t0 1 := by
          rw [redirectIn_keeps s.fds t1 cmd inp _ ha o0 (by rw [so]; exact h1), so]
        have ki2 : lookup t2 s.saved_stdin = lookup t0 0 := by
          rw [redirectOut_keeps t1 t2 cmd inp _ hb i1 (by rw [ki]; exact h0), ki]
        have ko2 : lookup t2 s.saved_stdout = lookup t0 1 := by
          rw [redirectOut_keeps t1 t2 cmd inp _ hb o1 (by rw [ko]; exact h1), ko]
        obtain ⟨r0, r1, ri, ro⟩ := restore_streams t2 s.saved_stdin s.saved_stdout _ _
          ki2 ko2 h0 h1 i0 i1 o0 o1
        simp only [ha, hb, hf]
        exact ⟨r0, r1, ri, ro, i0, i1, o0, o1⟩

theorem changeDirectory_fds (s : Shell) (cmd : Command) (inp : Input) :
    (changeDirectory s cmd inp).shell.fds = s.fds
    ∧ (changeDirectory s cmd inp).shell.saved_stdin = s.saved_stdin
    ∧ (changeDirectory s cmd inp).shell.saved_stdout = s.saved_stdout := by
  unfold changeDirectory
  cases cmd.pgm.pgmlist.rest.head? <;> simp

/-- One iteration of the loop keeps the streams saved, whenever the shell goes on. -/
theorem loopBody_saved (parse : List Char → Command) (t0 : FdTable) (s : Shell) (inp : Input)
    (h0 : lookup t0 0 ≠ none) (h1 : lookup t0 1 ≠ none) (hs : StreamsSaved t0 s)
    (hr : (loopBody parse s inp).status = .running) :
    StreamsSaved t0 (loopBody parse s inp).shell := by
  unfold loopBody at hr ⊢
  cases hl : inp.line with
  | none => simp [hl] at hr
  | some raw =>
    simp only [hl] at hr ⊢
    by_cases hne : strippedLine inp raw = []
    · simpa [hne] using hs
    · simp only [hne, ne_eq, not_false_eq_true, if_true] at hr ⊢
      by_cases hx : (parse (strippedLine inp raw)).pgm.pgmlist.arg0 = "exit"
      · simp [hx] at hr
      · simp only [hx, if_false] at hr ⊢
        by_cases hc : (parse (strippedLine inp raw)).pgm.pgmlist.arg0 = "cd"
        · simp only [hc, if_true]
          obtain ⟨e1, e2, e3⟩ := changeDirectory_fds
            { s with history := s.history ++ [strippedLine inp raw] }
            (parse (strippedLine inp raw)) inp
          unfold StreamsSaved at hs ⊢
          rw [e1, e2, e3]
          exact hs
        · simp only [hc, if_false] at hr ⊢
          exact spawnCommand_saved t0 _ _ inp h0 h1 hs hr

/-- The streams stay saved all along the loop of `main`. -/
theorem mainLoop_saved (parse : List Char → Command) (t0 : FdTable)
    (h0 : lookup t0 0 ≠ none) (h1 : lookup t0 1 ≠ none) (inputs : List Input) :
    ∀ s, StreamsSaved t0 s → (mainLoop parse s inputs).status = .running →
      StreamsSaved t0 (mainLoop parse s inputs).shell := by
  induction inputs with
  | nil => intro s hs _; exact hs
  | cons inp rest ih =>
    intro s hs hr
    unfold mainLoop at hr ⊢
    cases hst : (loopBody parse s inp).status with
    | running =>
      simp only [hst] at hr ⊢
      exact ih _ (loopBody_saved parse t0 s inp h0 h1 hs hst) hr
    | exited c => simp [hst] at hr
    | undefined => simp [hst] at hr

/-! ## The branches of one iteration -/

/-- On a line with something left after stripping whose command is neither `exit` nor `cd`,
the iteration is the spawning branch, after the history entry and the call of the parser. -/
theorem loopBody_spawn (parse : List Char → Command) (s : Shell) (inp : Input)
    (line : List Char) (hl : inp.line = some line) (hne : strippedLine inp line ≠ [])
    (hx : (parse (strippedLine inp line)).pgm.pgmlist.arg0 ≠ "exit")
    (hcd : (parse (strippedLine inp line)).pgm.pgmlist.arg0 ≠ "cd") :
    loopBody parse s inp
      = { spawnCommand { s with history := s.history ++ [strippedLine inp line] }
            (parse (strippedLine inp line)) inp with
          events := .parse (strippedLine inp line)
            :: (spawnCommand { s with history := s.history ++ [strippedLine inp line] }
                  (parse (strippedLine inp line)) inp).events } := by
  simp [loopBody, hl, hne, hx, hcd]

/-- The events of the spawning branch once the files are open and `fork` has succeeded:
the `fopen` calls, the `fork`, then the report and `sigaction` in the background or the
blocking `waitpid` in the foreground. -/
theorem spawnCommand_events (s : Shell) (cmd : Command) (inp : Input) (k : Nat)
    (ho : opensSucceed cmd inp) (hf : inp.fork = .child k) :
    ∃ opens : List Event, (∀ e ∈ opens, ∃ path mode, e = .fopen path mode true)
      ∧ (spawnCommand s cmd inp).events
        = opens ++ [.fork ((k : Int) + 1)]
          ++ (if cmd.background then
                [.printf ("Spawned process " ++ toString ((k : Int) + 1) ++ " in background\n"),
                  .sigactionCHLD]
              else [.waitpid ((k : Int) + 1) 0 (waitpidRet inp.wait ((k : Int) + 1))]) := by
  obtain ⟨t1, h1⟩ := redirectIn_ok s.fds cmd inp ho.1
  obtain ⟨t2, h2⟩ := redirectOut_ok t1 cmd inp ho.2
  refine ⟨(redirectIn s.fds cmd inp).2 ++ (redirectOut t1 cmd inp).2, ?_, ?_⟩
  · intro e he
    rcases List.mem_append.mp he with h | h
    · unfold redirectIn at h
      cases hr : cmd.rstdin with
      | none => simp [hr] at h
      | some path =>
        have := ho.1 (by simp [hr])
        simp only [hr, this, List.mem_singleton] at h
        exact ⟨path, "r", h⟩
    · unfold redirectOut at h
      cases hr : cmd.rstdout with
      | none => simp [hr] at h
      | some path =>
        have := ho.2 (by simp [hr])
        simp only [hr, this, List.mem_singleton] at h
        exact ⟨path, "w+", h⟩
  · simp [spawnCommand, h1, h2, hf]

/-- On a line with something left after stripping whose command is `cd`, the iteration is
the `cd` branch, after the history entry and the call of the parser. -/
theorem loopBody_cd (parse : List Char → Command) (s : Shell) (inp : Input)
    (line : List Char) (hl : inp.line = some line) (hne : strippedLine inp line ≠ [])
    (hcd : (parse (strippedLine inp line)).pgm.pgmlist.arg0 = "cd") :
    loopBody parse s inp
      = { changeDirectory { s with history := s.history ++ [strippedLine inp line] }
            (parse (strippedLine inp line)) inp with
          events := .parse (strippedLine inp line)
            :: (changeDirectory { s with history := s.history ++ [strippedLine inp line] }
                  (parse (strippedLine inp line)) inp).events } := by
  have hx : (parse (strippedLine inp line)).pgm.pgmlist.arg0 ≠ "exit" := by
    rw [hcd]; decide
  simp only [loopBody, hl]
  rw [if_pos hne, if_neg hx, if_pos hcd]

/-! ## The two-stage pipeline -/

theorem mem_iff_lookup (t : FdTable) (f : File) :
    some f ∈ t ↔ ∃ n : Nat, lookup t (n : Int) = some f := by
  simp only [lookup_ofNat, List.getD_eq_getElem?_getD]
  constructor
  · intro h
    obtain ⟨n, hn⟩ := List.mem_iff_getElem?.mp h
    exact ⟨n, by simp [hn]⟩
  · rintro ⟨n, hn⟩
    cases hg : t[n]? with
    | none => simp [hg] at hn
    | some x =>
      simp only [hg, Option.getD_some] at hn
      subst hn
      exact List.mem_iff_getElem?.mpr ⟨n, hg⟩

/-- What `runPgm` leaves for a chain of two stages when every call succeeds, and the
pipeline it sets up: the process of the head stage still has `pipe`, `fork`, the blocking
`waitpid` and `execvp` in front of it, in this order. -/
theorem flowInit_two_stages (env : Nat → StageEnv) (consumer producer : ProgramInvocation)
    (fds : FdTable) (pid status : Int) (k : Nat) (st : Int) (payload : List Nat)
    (hp : (env 0).pipe = .created) (hf : (env 0).fork = .child k)
    (hw : (env 0).wait = .reaped st) (hx0 : (env 0).exec = .replaced)
    (hx1 : (env 1).exec = .replaced)
    (h0 : lookup fds STDIN_FILENO ≠ none) (h1 : lookup fds STDOUT_FILENO ≠ none)
    (hfresh : some (File.pipeWrite 0) ∉ fds) :
    flowInit (runPgm env (.link consumer (.last producer)) 0 fds pid status) payload
      = some { script := [.pipe 0, .fork ((k : Int) + 1),
                 .waitpid ((k : Int) + 1) 0 ((k : Int) + 1),
                 .execvp consumer.arg0 consumer.argv none],
               consuming := false, pending := payload, producerExited := false, buf := [],
               got := [], eof := false } := by
  obtain ⟨P, hrun, hPs, hPe, hPf, hPo⟩ :=
    runPgm_link env consumer (.last producer) 0 k fds pid status hp hf _ _ rfl rfl
  obtain ⟨a0, a1, b0, b1, hab, fa, fb, lt⟩ := pipe_fds fds 0 h0 h1 _ _ rfl rfl
  have hin : lookup P.fds STDIN_FILENO = some (.pipeRead 0) := by
    have := parent_table fds 0 h0 h1 _ _ rfl rfl 0
    rw [hPf]
    simp only [STDIN_FILENO] at this ⊢
    rw [this]
    simp [Ne.symm b0, Ne.symm a0]
  have hout : lookup (close (dup2 (alloc (alloc fds (.pipeRead 0)).1 (.pipeWrite 0)).1
      (alloc (alloc fds (.pipeRead 0)).1 (.pipeWrite 0)).2 STDOUT_FILENO)
      (alloc (alloc fds (.pipeRead 0)).1 (.pipeWrite 0)).2) STDOUT_FILENO
        = some (.pipeWrite 0) := by
    have := child_table fds 0 h0 h1 _ _ rfl rfl 1
    simp only [STDOUT_FILENO] at this ⊢
    rw [this]
    simp [Ne.symm b1]
  have hnw : some (File.pipeWrite 0) ∉ P.fds := by
    rw [mem_iff_lookup]
    rintro ⟨n, hn⟩
    rw [hPf, parent_table fds 0 h0 h1 _ _ rfl rfl n] at hn
    split at hn
    · exact Option.noConfusion hn
    · split at hn
      · simp at hn
      · exact hfresh ((mem_iff_lookup fds _).mpr ⟨n, hn⟩)
  have hev : P.events = [.pipe 0, .fork ((k : Int) + 1),
      .waitpid ((k : Int) + 1) 0 ((k : Int) + 1), .execvp consumer.arg0 consumer.argv none] := by
    rw [hPe]
    simp [execStage, execvpRet, hx0, hw, waitpidRet]
  rw [hrun]
  simp only [runPgm, flowInit, execStage, hx1, execvpRet]
  rw [if_pos ⟨hin, hout, hnw, trivial⟩, hev]

/-- With a payload larger than the pipe, the pipeline never gets past the blocking
`waitpid`: the producer cannot finish writing, so it never terminates. -/
theorem beforeWait_step (pid : Int) (file : String) (argv : List String) (cap : Nat)
    (room : List Nat → Bool) (hroom : HoldsAtMost cap room)
    (payload : List Nat) (hbig : cap < payload.length) (s t : Flow)
    (hs : BeforeWait pid file argv cap payload s) (ht : t ∈ succs room s) :
    BeforeWait pid file argv cap payload t := by
  obtain ⟨script, consuming, pending, pe, buf, got, eof⟩ := s
  obtain ⟨hscr, hc, hpe, hg, he, hpay, hcap⟩ := hs
  simp only at hscr hc hpe hg he hpay hcap
  subst hc hpe hg he
  simp only [succs, List.mem_append] at ht
  rcases ht with ((h | h) | h) | h
  · rcases hscr with h1 | h1 | h1 <;> subst h1 <;>
      simp [scriptStep] at h <;> subst h <;> simp [BeforeWait, hpay, hcap]
  · cases pending with
    | nil => simp [writeStep] at h
    | cons b rest =>
      simp only [writeStep] at h
      split at h
      · rename_i hr
        have hlt := hroom buf hr
        simp only [List.mem_singleton] at h
        subst h
        refine ⟨hscr, rfl, rfl, rfl, rfl, ?_, ?_⟩
        · simpa using hpay
        · simp only [List.length_append, List.length_singleton]; omega
      · simp at h
  · simp only [exitStep] at h
    split at h
    · rename_i hcond
      have : buf = payload := by simpa [hcond.1] using hpay
      rw [this] at hcap
      omega
    · simp at h
  · simp [readStep] at h

theorem beforeWait_reaches (pid : Int) (file : String) (argv : List String) (cap : Nat)
    (room : List Nat → Bool) (hroom : HoldsAtMost cap room)
    (payload : List Nat) (hbig : cap < payload.length) (s t : Flow)
    (hs : BeforeWait pid file argv cap payload s) (ht : Reaches room s t) :
    BeforeWait pid file argv cap payload t := by
  induction ht with
  | refl => exact hs
  | tail _ hstep ih =>
    exact beforeWait_step pid file argv cap room hroom payload hbig _ _ ih hstep

/-- Every step of the pipeline keeps the invariant. -/
theorem flowInv_step (pid : Int) (file : String) (argv : List String)
    (room : List Nat → Bool)
    (payload : List Nat) (s t : Flow) (hs : FlowInv pid file argv payload s)
    (ht : t ∈ succs room s) : FlowInv pid file argv payload t := by
  obtain ⟨script, consuming, pending, pe, buf, got, eof⟩ := s
  obtain ⟨hpay, hphase, hexit, hidle, heof⟩ := hs
  simp only at hpay hphase hexit hidle heof
  simp only [succs, List.mem_append] at ht
  rcases ht with ((h | h) | h) | h
  · rcases hphase with ⟨h1 | h1 | h1, hc⟩ | ⟨h1, hc, hp⟩ | ⟨h1, hc, hp⟩
    · subst h1 hc
      simp [scriptStep] at h
      subst h
      exact ⟨hpay, by simp, hexit, hidle, heof⟩
    · subst h1 hc
      simp [scriptStep] at h
      subst h
      exact ⟨hpay, by simp, hexit, hidle, heof⟩
    · subst h1 hc
      simp [scriptStep] at h
      obtain ⟨hp, h⟩ := h
      subst h hp
      exact ⟨hpay, by simp, hexit, hidle, heof⟩
    · subst h1 hc hp
      simp [scriptStep] at h
      subst h
      have := hidle rfl
      refine ⟨hpay, by simp, hexit, by simp, ?_⟩
      intro he
      simp [this.2] at he
    · subst h1
      simp [scriptStep] at h
  · cases pending with
    | nil => simp [writeStep] at h
    | cons b rest =>
      have hpe : pe = false := by
        cases pe with
        | false => rfl
        | true => exact absurd (hexit rfl) (by simp)
      have hcons : consuming = false := by
        rcases hphase with ⟨-, hc⟩ | ⟨-, hc, -⟩ | ⟨-, -, hp⟩
        · exact hc
        · exact hc
        · rw [hpe] at hp; exact absurd hp (by simp)
      simp only [writeStep] at h
      split at h
      · simp only [List.mem_singleton] at h
        subst h
        refine ⟨by simpa using hpay, hphase, ?_, hidle, ?_⟩
        · intro hp; rw [hpe] at hp; exact absurd hp (by simp)
        · intro he
          have := (hidle hcons).2
          rw [this] at he
          exact absurd he (by simp)
      · simp at h
  · simp only [exitStep] at h
    split at h
    · rename_i hcond
      simp only [List.mem_singleton] at h
      subst h
      obtain ⟨hpn, hpf⟩ := hcond
      subst hpn hpf
      refine ⟨hpay, ?_, fun _ => rfl, hidle, heof⟩
      rcases hphase with ⟨h1, hc⟩ | ⟨-, -, hp⟩ | ⟨-, -, hp⟩
      · exact Or.inl ⟨h1, hc⟩
      · exact absurd hp (by simp)
      · exact absurd hp (by simp)
    · simp at h
  · simp only [readStep] at h
    split at h
    · rename_i hc
      subst hc
      have hph : script = [] ∧ pe = true := by
        rcases hphase with ⟨-, hc⟩ | ⟨-, hc, -⟩ | ⟨h1, -, hp⟩
        · exact absurd hc (by simp)
        · exact absurd hc (by simp)
        · exact ⟨h1, hp⟩
      cases buf with
      | nil =>
        simp only at h
        split at h
        · simp only [List.mem_singleton] at h
          subst h
          exact ⟨hpay, hphase, hexit, by simp, fun _ => rfl⟩
        · simp at h
      | cons b rest =>
        simp only [List.mem_singleton] at h
        subst h
        refine ⟨by simpa using hpay, hphase, hexit, by simp, ?_⟩
        intro he
        exact absurd (heof he) (by simp)
    · simp at h

theorem flowInv_reaches (pid : Int) (file : String) (argv : List String)
    (room : List Nat → Bool)
    (payload : List Nat) (s t : Flow) (hs : FlowInv pid file argv payload s)
    (ht : Reaches room s t) : FlowInv pid file argv payload t := by
  induction ht with
  | refl => exact hs
  | tail _ hstep ih => exact flowInv_step pid file argv room payload _ _ ih hstep

/-- Every step uses up some of the measure, so every run of the pipeline is finite. -/
theorem flowMeasure_step (room : List Nat → Bool) (s t : Flow)
    (ht : t ∈ succs room s) :
    flowMeasure t < flowMeasure s := by
  obtain ⟨script, consuming, pending, pe, buf, got, eof⟩ := s
  simp only [succs, List.mem_append] at ht
  rcases ht with ((h | h) | h) | h
  · simp only [scriptStep] at h
    split at h
    · simp at h
    · split at h
      · split at h
        · simp only [List.mem_singleton] at h
          subst h
          simp [flowMeasure]
        · simp at h
      · simp only [List.mem_singleton] at h
        subst h
        simp [flowMeasure]
    · simp only [List.mem_singleton] at h
      subst h
      simp only [flowMeasure, List.length_nil, List.length_cons]
      omega
    · simp only [List.mem_singleton] at h
      subst h
      simp [flowMeasure]
  · cases pending with
    | nil => simp [writeStep] at h
    | cons b rest =>
      simp only [writeStep] at h
      split at h
      · simp only [List.mem_singleton] at h
        subst h
        simp only [flowMeasure, List.length_append, List.length_cons, List.length_nil]
        omega
      · simp at h
  · simp only [exitStep] at h
    split at h
    · rename_i hcond
      simp only [List.mem_singleton] at h
      subst h
      obtain ⟨-, hpf⟩ := hcond
      subst hpf
      simp [flowMeasure]
    · simp at h
  · simp only [readStep] at h
    split at h
    · cases buf with
      | nil =>
        simp only at h
        split at h
        · rename_i hcond
          simp only [List.mem_singleton] at h
          subst h
          obtain ⟨-, hef⟩ := hcond
          subst hef
          simp [flowMeasure]
        · simp at h
      | cons b rest =>
        simp only [List.mem_singleton] at h
        subst h
        simp only [flowMeasure, List.length_cons]
        omega
    · simp at h

/-- From every state the pipeline gets to a state in which nothing can move any more. -/
theorem exists_stuck (room : List Nat → Bool) :
    ∀ (n : Nat) (s : Flow), flowMeasure s ≤ n → ∃ t, Reaches room s t ∧ succs room t = [] := by
  intro n
  induction n with
  | zero =>
    intro s hs
    refine ⟨s, Relation.ReflTransGen.refl, ?_⟩
    cases hsu : succs room s with
    | nil => rfl
    | cons t ts =>
      have := flowMeasure_step room s t (by rw [hsu]; exact List.mem_cons_self t ts)
      omega
  | succ n ih =>
    intro s hs
    cases hsu : succs room s with
    | nil => exact ⟨s, Relation.ReflTransGen.refl, hsu⟩
    | cons t ts =>
      have hmem : t ∈ succs room s := by rw [hsu]; exact List.mem_cons_self t ts
      have hlt := flowMeasure_step room s t hmem
      obtain ⟨u, hu, hstuck⟩ := ih t (by omega)
      exact ⟨u, Relation.ReflTransGen.head hmem hu, hstuck⟩

/-- When the pipe takes the whole payload, the producer can write all of it without anyone
reading. -/
theorem write_all (room : List Nat → Bool) (payload : List Nat) (hacc : Accepts room payload)
    (script : List Event) (ys xs : List Nat) (h : xs ++ ys = payload) :
    Reaches room ⟨script, false, ys, false, xs, [], false⟩
      ⟨script, false, [], false, payload, [], false⟩ := by
  induction ys generalizing xs with
  | nil =>
    simp only [List.append_nil] at h
    subst h
    exact Relation.ReflTransGen.refl
  | cons b rest ih =>
    have hx : xs = payload.take xs.length := by
      rw [← h]; simp
    have hlt : xs.length < payload.length := by
      rw [← h]; simp
    have hr : room xs = true := by
      rw [hx]; exact hacc _ hlt
    have hstep : (⟨script, false, rest, false, xs ++ [b], [], false⟩ : Flow)
        ∈ succs room ⟨script, false, b :: rest, false, xs, [], false⟩ := by
      simp [succs, writeStep, hr]
    exact Relation.ReflTransGen.head hstep (ih (xs ++ [b]) (by simpa using h))

/-- The consumer's program can read everything that is in the pipe. -/
theorem read_all (room : List Nat → Bool) (buf got : List Nat) :
    Reaches room ⟨[], true, [], true, buf, got, false⟩
      ⟨[], true, [], true, [], got ++ buf, false⟩ := by
  induction buf generalizing got with
  | nil => simpa using Relation.ReflTransGen.refl
  | cons b rest ih =>
    have hstep : (⟨[], true, [], true, rest, got ++ [b], false⟩ : Flow)
        ∈ succs room ⟨[], true, [], true, b :: rest, got, false⟩ := by
      simp [succs, readStep, scriptStep, writeStep, exitStep]
    have hrest := ih (got ++ [b])
    simp only [List.append_assoc, List.singleton_append] at hrest
    exact Relation.ReflTransGen.head hstep hrest

/-- When the pipe takes the whole payload the pipeline can complete: the producer writes
it and terminates, `waitpid` returns, the consumer's program starts, reads it all and then
end of file. -/
theorem flow_completes (pid : Int) (file : String) (argv : List String)
    (room : List Nat → Bool) (payload : List Nat) (hacc : Accepts room payload) :
    Reaches room
      ⟨[.pipe 0, .fork pid, .waitpid pid 0 pid, .execvp file argv none], false, payload,
        false, [], [], false⟩
      ⟨[], true, [], true, [], payload, true⟩ := by
  have w := write_all room payload hacc
    [.pipe 0, .fork pid, .waitpid pid 0 pid, .execvp file argv none] payload [] rfl
  have r := read_all room payload []
  simp only [List.nil_append] at r
  refine w.trans ?_
  refine Relation.ReflTransGen.head (b := ⟨[.pipe 0, .fork pid, .waitpid pid 0 pid,
    .execvp file argv none], false, [], true, payload, [], false⟩) (by simp [succs, exitStep]) ?_
  refine Relation.ReflTransGen.head (b := ⟨[.fork pid, .waitpid pid 0 pid,
    .execvp file argv none], false, [], true, payload, [], false⟩)
    (by simp [succs, scriptStep]) ?_
  refine Relation.ReflTransGen.head (b := ⟨[.waitpid pid 0 pid,
    .execvp file argv none], false, [], true, payload, [], false⟩)
    (by simp [succs, scriptStep]) ?_
  refine Relation.ReflTransGen.head (b := ⟨[.execvp file argv none], false, [], true,
    payload, [], false⟩) (by simp [succs, scriptStep]) ?_
  refine Relation.ReflTransGen.head (b := ⟨[], true, [], true, payload, [], false⟩)
    (by simp [succs, scriptStep]) ?_
  refine r.trans ?_
  exact Relation.ReflTransGen.single (by simp [succs, readStep])

/-- When the pipe takes the whole payload the pipeline cannot get stuck before the
consumer's program has read end of file. -/
theorem flow_progress (pid : Int) (file : String) (argv : List String)
    (room : List Nat → Bool) (payload : List Nat) (hacc : Accepts room payload) (s : Flow)
    (hs : FlowInv pid file argv payload s) : s.eof = true ∨ succs room s ≠ [] := by
  obtain ⟨script, consuming, pending, pe, buf, got, eof⟩ := s
  obtain ⟨hpay, hphase, hexit, hidle, heof⟩ := hs
  simp only at hpay hphase hexit hidle heof
  rcases hphase with ⟨h1 | h1 | h1, hc⟩ | ⟨h1, hc, hp⟩ | ⟨h1, hc, hp⟩
  · subst h1; right; simp [succs, scriptStep]
  · subst h1; right; simp [succs, scriptStep]
  · subst h1 hc
    right
    cases pe with
    | true => simp [succs, scriptStep]
    | false =>
      cases pending with
      | nil => simp [succs, exitStep]
      | cons b rest =>
        have hg := (hidle rfl).1
        subst hg
        simp only [List.nil_append] at hpay
        have hx : buf = payload.take buf.length := by
          rw [← hpay]; simp
        have hlt : buf.length < payload.length := by
          rw [← hpay]; simp
        have hr : room buf = true := by
          rw [hx]; exact hacc _ hlt
        simp [succs, writeStep, hr]
  · subst h1; right; simp [succs, scriptStep]
  · subst h1 hc hp
    cases eof with
    | true => left; rfl
    | false =>
      right
      cases buf <;> simp [succs, readStep]

/-- With a payload larger than anything the pipe holds the pipeline gets stuck: it reaches
a state in which nothing can move, the producer with bytes left to write and not
terminated, the other process in `waitpid`, the consumer's program not started. -/
theorem flow_stalls (pid : Int) (file : String) (argv : List String) (cap : Nat)
    (room : List Nat → Bool) (hroom : HoldsAtMost cap room)
    (payload : List Nat) (hbig : cap < payload.length) :
    ∃ s, Reaches room
        ⟨[.pipe 0, .fork pid, .waitpid pid 0 pid, .execvp file argv none], false, payload,
          false, [], [], false⟩ s
      ∧ succs room s = [] ∧ s.pending ≠ [] ∧ s.producerExited = false
      ∧ s.consuming = false ∧ s.got = [] ∧ s.eof = false
      ∧ s.script = [.waitpid pid 0 pid, .execvp file argv none] := by
  obtain ⟨t, ht, hstuck⟩ := exists_stuck room _
    ⟨[.pipe 0, .fork pid, .waitpid pid 0 pid, .execvp file argv none], false, payload,
      false, [], [], false⟩ (le_refl _)
  have hinit : BeforeWait pid file argv cap payload
      ⟨[.pipe 0, .fork pid, .waitpid pid 0 pid, .execvp file argv none], false, payload,
        false, [], [], false⟩ :=
    ⟨Or.inl rfl, rfl, rfl, rfl, rfl, rfl, Nat.zero_le _⟩
  obtain ⟨hscr, hc, hp, hg, he, hpay, hcap⟩ :=
    beforeWait_reaches pid file argv cap room hroom payload hbig _ t hinit ht
  have hpend : t.pending ≠ [] := by
    intro hnil
    rw [hnil, List.append_nil] at hpay
    rw [hpay] at hcap
    omega
  refine ⟨t, ht, hstuck, hpend, hp, hc, hg, he, ?_⟩
  rcases hscr with h1 | h1 | h1
  · have : succs room t ≠ [] := by simp [succs, scriptStep, h1]
    exact absurd hstuck this
  · have : succs room t ≠ [] := by simp [succs, scriptStep, h1]
    exact absurd hstuck this
  · exact h1

/-! ## The sibling branches -/

/-- When `fork` fails in the intermediate case the process reports and exits at once: it is
the only process, and it never reaches `execvp`. -/
theorem runPgm_fork_failure (env : Nat → StageEnv) (p : ProgramInvocation) (next : Pgm)
    (d : Nat) (fds : FdTable) (pid status : Int) (hf : (env d).fork = .failed) :
    ∃ P, runPgm env (.link p next) d fds pid status = [P]
      ∧ P.outcome = .exited EXIT_FAILURE
      ∧ Event.perror "Failed to fork()" ∈ P.events
      ∧ P.events.getLast? = some (.exit EXIT_FAILURE)
      ∧ ∀ file argv ret, Event.execvp file argv ret ∉ P.events := by
  cases hp : (env d).pipe with
  | created =>
    have h : runPgm env (.link p next) d fds pid status
        = [{ stage := p,
             events := [.pipe 0, .fork (-1), .perror "Failed to fork()", .exit EXIT_FAILURE],
             fds := (alloc (alloc fds (.pipeRead d)).1 (.pipeWrite d)).1, pid := -1,
             status := status, outcome := .exited EXIT_FAILURE }] := by
      simp [runPgm, hf, hp, makePipe]
    exact ⟨_, h, rfl, by simp, by simp, by simp⟩
  | failed g0 g1 =>
    have h : runPgm env (.link p next) d fds pid status
        = [{ stage := p,
             events := [.pipe (-1), .perror "Pipe error", .fork (-1),
               .perror "Failed to fork()", .exit EXIT_FAILURE],
             fds := fds, pid := -1, status := status, outcome := .exited EXIT_FAILURE }] := by
      simp [runPgm, hf, hp, makePipe]
    exact ⟨_, h, rfl, by simp, by simp, by simp⟩

/-- On the branch of `cd` with a path, a failing `chdir` is reported with `perror`, the
directory stays the same and the shell goes on. -/
theorem cd_path_failure_reported (s : Shell) (cmd : Command) (inp : Input) (path : String)
    (hp : cmd.pgm.pgmlist.rest.head? = some path) (hc : inp.chdir s.cwd path = none) :
    (changeDirectory s cmd inp).events = [.chdir (some path) (-1), .perror "cd failed"]
    ∧ (changeDirectory s cmd inp).shell.cwd = s.cwd
    ∧ (changeDirectory s cmd inp).spawned = []
    ∧ (changeDirectory s cmd inp).status = .running := by
  simp [changeDirectory, hp, chdir, hc]

/-- The parent in `runPgm` closes both descriptors of its pipe: at its `execvp` only its
standard input refers to the pipe. -/
theorem parent_closes_pipe (t : FdTable) (d : Nat) (h0 : lookup t 0 ≠ none)
    (h1 : lookup t 1 ≠ none)
    (hfresh : ∀ fd, lookup t fd ≠ some (.pipeRead d) ∧ lookup t fd ≠ some (.pipeWrite d))
    (a b : FdTable × Int) (ha : a = alloc t (.pipeRead d)) (hb : b = alloc a.1 (.pipeWrite d))
    (fd : Int) (hfd : fd ≠ STDIN_FILENO) :
    lookup (close (close (dup2 b.1 a.2 STDIN_FILENO) a.2) b.2) fd ≠ some (.pipeRead d)
    ∧ lookup (close (close (dup2 b.1 a.2 STDIN_FILENO) a.2) b.2) fd ≠ some (.pipeWrite d) := by
  rw [parent_table t d h0 h1 a b ha hb fd]
  simp only [STDIN_FILENO] at hfd
  by_cases e : fd = b.2 ∨ fd = a.2
  · simp [e]
  · simp only [e, hfd, if_false]
    exact hfresh fd

/-- The new process in `runPgm` does not close the read descriptor of the pipe: when it
recurses, and so in every image below it, a descriptor other than 0 and 1 refers to the
read end. -/
theorem child_keeps_read_end (t : FdTable) (d : Nat) (h0 : lookup t 0 ≠ none)
    (h1 : lookup t 1 ≠ none)
    (a b : FdTable × Int) (ha : a = alloc t (.pipeRead d)) (hb : b = alloc a.1 (.pipeWrite d)) :
    a.2 ≠ STDIN_FILENO ∧ a.2 ≠ STDOUT_FILENO
    ∧ lookup (close (dup2 b.1 b.2 STDOUT_FILENO) b.2) a.2 = some (.pipeRead d) := by
  obtain ⟨a0, a1, b0, b1, hab, fa, fb, lt⟩ := pipe_fds t d h0 h1 a b ha hb
  refine ⟨a0, a1, ?_⟩
  rw [child_table t d h0 h1 a b ha hb a.2]
  simp [hab, a1]

/-! # The claims -/

/-- C1 (as stated, refuted): in the chain whose head `wc` has the next stage `ls`, the
standard output of the process that executes the stage `wc` is the descriptor it inherited,
not a pipe, so the output of the stage does not become the input of its next stage. -/
theorem C1_stage_does_not_feed_next :
    ∃ P Q, runPgm (fun _ => okStage) lsWc 0 stdTable 0 0 = [P, Q]
      ∧ P.stage = lsWc.pgmlist ∧ lsWc.next = some (.last Q.stage)
      ∧ lookup P.fds STDOUT_FILENO = some (.inherited 1)
      ∧ lookup Q.fds STDIN_FILENO = some (.inherited 0)
      ∧ ¬ feeds P Q := by
  refine ⟨{ stage := progWc,
            events := [.pipe 0, .fork 100, .waitpid 100 0 100, .execvp "wc" ["wc"] none],
            fds := [some (.pipeRead 0), some (.inherited 1), some (.inherited 2), none, none],
            pid := 100, status := 0, outcome := .execed },
          { stage := progLs, events := [.execvp "ls" ["ls"] none],
            fds := [some (.inherited 0), some (.pipeWrite 0), some (.inherited 2),
              some (.pipeRead 0), none],
            pid := 0, status := 0, outcome := .execed },
          by decide, by decide, by decide, by decide, by decide, ?_⟩
  rintro ⟨id, h, -⟩
  simp [lookup, STDOUT_FILENO] at h

/-- C1 (amended): for every chain handed to `runPgm` in a process whose standard input and
output are open, when every `pipe` and `fork` succeeds, for every stage `S` with next stage
`N` the process that executes `N` has its standard output connected to the pipe whose read
end is the standard input of the process that executes `S`: the output of the next stage
becomes the input of the stage. -/
theorem C1_next_feeds_stage (env : Nat → StageEnv) (hp : ∀ d, (env d).pipe = .created)
    (hf : ∀ d, ∃ k, (env d).fork = .child k) (p : Pgm) (fds : FdTable) (pid status : Int)
    (h0 : lookup fds STDIN_FILENO ≠ none) (h1 : lookup fds STDOUT_FILENO ≠ none)
    (i : Nat) (S N : ProgramInvocation)
    (hS : p.stages[i]? = some S) (hN : p.stages[i + 1]? = some N) :
    ∃ P Q, (runPgm env p 0 fds pid status)[i]? = some P
      ∧ (runPgm env p 0 fds pid status)[i + 1]? = some Q
      ∧ P.stage = S ∧ Q.stage = N
      ∧ Event.execvp S.arg0 S.argv (execvpRet (env i).exec) ∈ P.events
      ∧ Event.execvp N.arg0 N.argv (execvpRet (env (i + 1)).exec) ∈ Q.events
      ∧ lookup Q.fds STDOUT_FILENO = some (.pipeWrite i)
      ∧ lookup P.fds STDIN_FILENO = some (.pipeRead i)
      ∧ feeds Q P := by
  obtain ⟨P, Q, hP, hQ, hPs, hQs, eP, eQ, hw, hr⟩ :=
    runPgm_chain env hp hf p 0 fds pid status h0 h1 i S N hS hN
  simp only [zero_add] at eP eQ hw hr
  exact ⟨P, Q, hP, hQ, hPs, hQs, eP, eQ, hw, hr, i, hw, hr⟩

/-- C1 (amended), at `ls | wc`: the process of `ls` writes into the pipe the process of `wc`
reads. -/
theorem C1_next_feeds_stage_witness :
    ∃ P Q, (runPgm (fun _ => okStage) lsWc 0 stdTable 0 0)[0]? = some P
      ∧ (runPgm (fun _ => okStage) lsWc 0 stdTable 0 0)[0 + 1]? = some Q
      ∧ P.stage = progWc ∧ Q.stage = progLs
      ∧ Event.execvp progWc.arg0 progWc.argv (execvpRet ((fun _ => okStage) 0).exec) ∈ P.events
      ∧ Event.execvp progLs.arg0 progLs.argv
          (execvpRet ((fun _ => okStage) (0 + 1)).exec) ∈ Q.events
      ∧ lookup Q.fds STDOUT_FILENO = some (.pipeWrite 0)
      ∧ lookup P.fds STDIN_FILENO = some (.pipeRead 0)
      ∧ feeds Q P :=
  C1_next_feeds_stage (fun _ => okStage) (fun _ => rfl) (fun _ => ⟨99, rfl⟩) lsWc stdTable 0 0
    (by decide) (by decide) 0 progWc progLs rfl rfl

/-- C2 (as stated, refuted): when the `execvp` of the stage `ls` fails and `concat` cannot
allocate the message, the process reports "Function concat failed!" and not "Execution of
command failed: ls". -/
theorem C2_message_lost_without_memory :
    ∃ P, runPgm (fun _ => noMemStage) (.last progLs) 0 stdTable 0 0 = [P]
      ∧ P.events = [.execvp "ls" ["ls"] (some (-1)), .perror "Function concat failed!",
          .exit EXIT_FAILURE]
      ∧ Event.execvp progLs.arg0 progLs.argv (some (-1)) ∈ P.events
      ∧ Event.perror ("Execution of command failed: " ++ progLs.arg0) ∉ P.events :=
  ⟨{ stage := progLs,
     events := [.execvp "ls" ["ls"] (some (-1)), .perror "Function concat failed!",
       .exit EXIT_FAILURE],
     fds := stdTable, pid := 0, status := 0, outcome := .exited EXIT_FAILURE },
   by decide, by decide, by decide, by decide⟩

/-- C2 (amended): for every chain and every process that runs `runPgm`, control never comes
back to the caller: the last thing the process does is a successful `execvp` of its stage or
`exit(EXIT_FAILURE)`; and whenever the `execvp` of its stage fails, the process exits with
`EXIT_FAILURE` after reporting "Execution of command failed: " followed by the first
argument of the stage, or "Function concat failed!" when `concat` cannot allocate that
message. -/
theorem C2_runPgm_never_returns (env : Nat → StageEnv) (p : Pgm) (fds : FdTable)
    (pid status : Int) (i : Nat) (P : Proc)
    (hP : (runPgm env p 0 fds pid status)[i]? = some P) :
    P.outcome ≠ .returned
    ∧ (P.outcome = .execed
          ∧ P.events.getLast? = some (.execvp P.stage.arg0 P.stage.argv none)
        ∨ P.outcome = .exited EXIT_FAILURE
          ∧ P.events.getLast? = some (.exit EXIT_FAILURE))
    ∧ ∀ r, Event.execvp P.stage.arg0 P.stage.argv (some r) ∈ P.events →
        P.outcome = .exited EXIT_FAILURE
        ∧ Event.perror (if (env i).malloc
            then "Execution of command failed: " ++ P.stage.arg0
            else "Function concat failed!") ∈ P.events := by
  have h := runPgm_ends env p 0 fds pid status i P hP
  simp only [zero_add] at h
  refine ⟨?_, h.1, h.2⟩
  rcases h.1 with h1 | h1 <;> rw [h1.1] <;> simp

/-- C2 (amended), at the chain of `ls | wc` when no program can be executed: the process of
`ls` reports "Execution of command failed: ls" and exits with `EXIT_FAILURE`. -/
theorem C2_runPgm_never_returns_witness :
    (runPgm (fun _ => noExecStage) lsWc 0 stdTable 0 0)[1]? = some lsFailed
    ∧ lsFailed.outcome ≠ .returned
    ∧ (lsFailed.outcome = .execed
          ∧ lsFailed.events.getLast?
            = some (.execvp lsFailed.stage.arg0 lsFailed.stage.argv none)
        ∨ lsFailed.outcome = .exited EXIT_FAILURE
          ∧ lsFailed.events.getLast? = some (.exit EXIT_FAILURE))
    ∧ ∀ r, Event.execvp lsFailed.stage.arg0 lsFailed.stage.argv (some r) ∈ lsFailed.events →
        lsFailed.outcome = .exited EXIT_FAILURE
        ∧ Event.perror (if ((fun _ => noExecStage) 1 : StageEnv).malloc
            then "Execution of command failed: " ++ lsFailed.stage.arg0
            else "Function concat failed!") ∈ lsFailed.events :=
  ⟨by decide,
    C2_runPgm_never_returns (fun _ => noExecStage) lsWc stdTable 0 0 1 lsFailed (by decide)⟩

/-- C3: in a shell started with standard input and output open, for every command that
`main` dispatches in the foreground (any redirections, all named files opened, top-level
`fork` successful), after any number of earlier iterations: the shell blocks in `waitpid`,
goes on, and whatever `waitpid` returned its descriptors 0 and 1 refer again to the files
they referred to at start-up, which are the files kept in `saved_stdin` and
`saved_stdout`. -/
theorem C3_streams_restored (parse : List Char → Command) (t0 : FdTable) (cwd : String)
    (pre : List Input) (inp : Input) (line : List Char) (k : Nat)
    (h0 : lookup t0 STDIN_FILENO ≠ none) (h1 : lookup t0 STDOUT_FILENO ≠ none)
    (hpre : (main parse t0 cwd pre).status = .running)
    (hl : inp.line = some line) (hne : strippedLine inp line ≠ [])
    (hx : (parse (strippedLine inp line)).pgm.pgmlist.arg0 ≠ "exit")
    (hcd : (parse (strippedLine inp line)).pgm.pgmlist.arg0 ≠ "cd")
    (hfg : (parse (strippedLine inp line)).background = false)
    (ho : opensSucceed (parse (strippedLine inp line)) inp)
    (hf : inp.fork = .child k) :
    (loopBody parse (main parse t0 cwd pre).shell inp).status = .running
    ∧ Event.waitpid ((k : Int) + 1) 0 (waitpidRet inp.wait ((k : Int) + 1))
        ∈ (loopBody parse (main parse t0 cwd pre).shell inp).events
    ∧ lookup (loopBody parse (main parse t0 cwd pre).shell inp).shell.fds STDIN_FILENO
        = lookup t0 STDIN_FILENO
    ∧ lookup (loopBody parse (main parse t0 cwd pre).shell inp).shell.fds STDOUT_FILENO
        = lookup t0 STDOUT_FILENO
    ∧ lookup (loopBody parse (main parse t0 cwd pre).shell inp).shell.fds
        (loopBody parse (main parse t0 cwd pre).shell inp).shell.saved_stdin
        = lookup t0 STDIN_FILENO
    ∧ lookup (loopBody parse (main parse t0 cwd pre).shell inp).shell.fds
        (loopBody parse (main parse t0 cwd pre).shell inp).shell.saved_stdout
        = lookup t0 STDOUT_FILENO := by
  have hs0 : StreamsSaved t0 (main parse t0 cwd pre).shell :=
    mainLoop_saved parse t0 h0 h1 pre _ (startup_saved t0 cwd h0 h1) hpre
  have hrun : (loopBody parse (main parse t0 cwd pre).shell inp).status = .running := by
    rw [loopBody_spawn parse _ inp line hl hne hx hcd]
    exact spawnCommand_running _ _ inp k ho hf
  obtain ⟨a, b, c, d, -⟩ := loopBody_saved parse t0 _ inp h0 h1 hs0 hrun
  refine ⟨hrun, ?_, a, b, c, d⟩
  rw [loopBody_spawn parse _ inp line hl hne hx hcd]
  obtain ⟨opens, -, hev⟩ := spawnCommand_events
    { (main parse t0 cwd pre).shell with
      history := (main parse t0 cwd pre).shell.history ++ [strippedLine inp line] }
    (parse (strippedLine inp line)) inp k ho hf
  simp [hev, hfg]

/-- C3, at the line `ls | wc > out` read after `sleep 5 &`: once `waitpid` has returned,
descriptors 0 and 1 of the shell are the inherited ones again, not `out`. -/
theorem C3_streams_restored_witness :
    (loopBody parseDemo (main parseDemo stdTable "/" [inputOk "sleep 5 & "]).shell
        (inputOk "ls | wc > out ")).status = .running
    ∧ Event.waitpid ((41 : Nat) + 1) 0 (waitpidRet (inputOk "ls | wc > out ").wait ((41 : Nat) + 1))
        ∈ (loopBody parseDemo (main parseDemo stdTable "/" [inputOk "sleep 5 & "]).shell
            (inputOk "ls | wc > out ")).events
    ∧ lookup (loopBody parseDemo (main parseDemo stdTable "/" [inputOk "sleep 5 & "]).shell
        (inputOk "ls | wc > out ")).shell.fds STDIN_FILENO = lookup stdTable STDIN_FILENO
    ∧ lookup (loopBody parseDemo (main parseDemo stdTable "/" [inputOk "sleep 5 & "]).shell
        (inputOk "ls | wc > out ")).shell.fds STDOUT_FILENO = lookup stdTable STDOUT_FILENO
    ∧ lookup (loopBody parseDemo (main parseDemo stdTable "/" [inputOk "sleep 5 & "]).shell
        (inputOk "ls | wc > out ")).shell.fds
        (loopBody parseDemo (main parseDemo stdTable "/" [inputOk "sleep 5 & "]).shell
          (inputOk "ls | wc > out ")).shell.saved_stdin = lookup stdTable STDIN_FILENO
    ∧ lookup (loopBody parseDemo (main parseDemo stdTable "/" [inputOk "sleep 5 & "]).shell
        (inputOk "ls | wc > out ")).shell.fds
        (loopBody parseDemo (main parseDemo stdTable "/" [inputOk "sleep 5 & "]).shell
          (inputOk "ls | wc > out ")).shell.saved_stdout = lookup stdTable STDOUT_FILENO :=
  C3_streams_restored parseDemo stdTable "/" [inputOk "sleep 5 & "] (inputOk "ls | wc > out ")
    "ls | wc > out ".toList 41 (by decide) (by decide) (by decide) rfl (by decide) (by decide)
    (by decide) (by decide) ⟨fun _ => rfl, fun _ => rfl⟩ rfl

/-- C4 (the code at the failing input): for `cat < /nonexistent`, where the input file
cannot be opened, `main` hands the null stream to `fileno`: nothing is reported, no process
is spawned and the shell does not go on to its next iteration. -/
theorem C4_unopened_file_not_reported :
    (loopBody parseDemo (startup stdTable "/") (inputNoFile "cat < /nonexistent")).events
      = [.parse "cat < /nonexistent".toList, .fopen "/nonexistent" "r" false]
    ∧ (loopBody parseDemo (startup stdTable "/") (inputNoFile "cat < /nonexistent")).spawned
      = []
    ∧ (loopBody parseDemo (startup stdTable "/") (inputNoFile "cat < /nonexistent")).status
      = .undefined := by
  decide

/-- C5 (the code at the failing input): when `pipe` fails in the intermediate case the
process reports "Pipe error" and goes on: it forks, waits and executes the program of its
stage, and the forked process executes the program of the next stage. -/
theorem C5_pipe_failure_goes_on :
    ∃ P Q, runPgm (fun _ => pipeFailStage) lsWc 0 stdTable 0 0 = [P, Q]
      ∧ P.events = [.pipe (-1), .perror "Pipe error", .fork 100, .waitpid 100 0 100,
          .execvp "wc" ["wc"] none]
      ∧ P.outcome = .execed
      ∧ Q.events = [.execvp "ls" ["ls"] none]
      ∧ Q.outcome = .execed :=
  ⟨{ stage := progWc,
     events := [.pipe (-1), .perror "Pipe error", .fork 100, .waitpid 100 0 100,
       .execvp "wc" ["wc"] none],
     fds := stdTable, pid := 100, status := 0, outcome := .execed },
   { stage := progLs, events := [.execvp "ls" ["ls"] none], fds := stdTable, pid := 0,
     status := 0, outcome := .execed },
   by decide, by decide, by decide, by decide, by decide⟩

/-- C6: for every command that is neither `exit` nor `cd`, once the named files are open and
the top-level `fork` has returned the identifier `k + 1`, the shell goes on to its next
iteration; it calls the blocking `waitpid` on `k + 1` exactly when the background flag is
false; and when the flag is true it calls no `waitpid` at all and prints
"Spawned process <k + 1> in background". -/
theorem C6_waits_iff_foreground (parse : List Char → Command) (s : Shell) (inp : Input)
    (line : List Char) (k : Nat)
    (hl : inp.line = some line) (hne : strippedLine inp line ≠ [])
    (hx : (parse (strippedLine inp line)).pgm.pgmlist.arg0 ≠ "exit")
    (hcd : (parse (strippedLine inp line)).pgm.pgmlist.arg0 ≠ "cd")
    (ho : opensSucceed (parse (strippedLine inp line)) inp)
    (hf : inp.fork = .child k) :
    (loopBody parse s inp).status = .running
    ∧ Event.fork ((k : Int) + 1) ∈ (loopBody parse s inp).events
    ∧ (Event.waitpid ((k : Int) + 1) 0 (waitpidRet inp.wait ((k : Int) + 1))
          ∈ (loopBody parse s inp).events
        ↔ (parse (strippedLine inp line)).background = false)
    ∧ ((parse (strippedLine inp line)).background = true →
        (∀ pid options ret, Event.waitpid pid options ret ∉ (loopBody parse s inp).events)
        ∧ Event.printf ("Spawned process " ++ toString ((k : Int) + 1) ++ " in background\n")
            ∈ (loopBody parse s inp).events) := by
  rw [loopBody_spawn parse s inp line hl hne hx hcd]
  obtain ⟨opens, hopens, hev⟩ := spawnCommand_events
    { s with history := s.history ++ [strippedLine inp line] }
    (parse (strippedLine inp line)) inp k ho hf
  have hno : ∀ pid options ret, Event.waitpid pid options ret ∉ opens := by
    intro pid options ret hm
    obtain ⟨path, mode, e⟩ := hopens _ hm
    exact Event.noConfusion e
  have hrun := spawnCommand_running
    { s with history := s.history ++ [strippedLine inp line] }
    (parse (strippedLine inp line)) inp k ho hf
  refine ⟨hrun, by simp [hev], ?_, ?_⟩
  · cases hb : (parse (strippedLine inp line)).background <;> simp [hev, hb, hno]
  · intro hb
    refine ⟨?_, by simp [hev, hb]⟩
    intro pid options ret
    simp [hev, hb, hno]

/-- C6, at the line `sleep 5 &` with the forked process numbered 42: no `waitpid`, and the
report "Spawned process 42 in background". -/
theorem C6_waits_iff_foreground_witness :
    (loopBody parseDemo (startup stdTable "/") (inputOk "sleep 5 & ")).status = .running
    ∧ Event.fork ((41 : Nat) + 1)
        ∈ (loopBody parseDemo (startup stdTable "/") (inputOk "sleep 5 & ")).events
    ∧ (Event.waitpid ((41 : Nat) + 1) 0 (waitpidRet (inputOk "sleep 5 & ").wait ((41 : Nat) + 1))
          ∈ (loopBody parseDemo (startup stdTable "/") (inputOk "sleep 5 & ")).events
        ↔ (parseDemo (strippedLine (inputOk "sleep 5 & ") "sleep 5 & ".toList)).background = false)
    ∧ ((parseDemo (strippedLine (inputOk "sleep 5 & ") "sleep 5 & ".toList)).background = true →
        (∀ pid options ret, Event.waitpid pid options ret
          ∉ (loopBody parseDemo (startup stdTable "/") (inputOk "sleep 5 & ")).events)
        ∧ Event.printf ("Spawned process " ++ toString (((41 : Nat) : Int) + 1)
              ++ " in background\n")
            ∈ (loopBody parseDemo (startup stdTable "/") (inputOk "sleep 5 & ")).events) :=
  C6_waits_iff_foreground parseDemo (startup stdTable "/") (inputOk "sleep 5 & ")
    "sleep 5 & ".toList 41 rfl (by decide) (by decide) (by decide)
    ⟨fun _ => rfl, fun _ => rfl⟩ rfl

/-- C7 (as stated, refuted): run `ls | wc` through `runPgm` with a producer that writes
65537 bytes and any pipe that never holds more than 65536 bytes.  On every run the process
that is to execute the consumer stays in front of its `execvp` while the producer never
terminates: the consumer's program reads nothing and never sees end of file.  And the
pipeline does get stuck: it reaches a state without any possible step, the producer with
bytes left to write, the other process in `waitpid`. -/
theorem C7_large_payload_never_delivered :
    ∃ s0, flowInit (runPgm (fun _ => okStage) lsWc 0 stdTable 0 0) (List.replicate 65537 0)
        = some s0
      ∧ HoldsAtMost 65536 (bytePipe 65536)
      ∧ ∀ room, HoldsAtMost 65536 room →
          (∀ s, Reaches room s0 s →
            s.consuming = false ∧ s.producerExited = false ∧ s.got = [] ∧ s.eof = false)
          ∧ ∃ s, Reaches room s0 s ∧ succs room s = [] ∧ s.pending ≠ []
              ∧ s.script = [.waitpid 100 0 100, .execvp "wc" ["wc"] none] := by
  have hbig : 65536 < (List.replicate 65537 0).length := by
    rw [List.length_replicate]; omega
  refine ⟨_, flowInit_two_stages (fun _ => okStage) progWc progLs stdTable 0 0 99 0 _
    rfl rfl rfl rfl rfl (by decide) (by decide) (by decide), ?_, ?_⟩
  · intro buf hb
    simpa [bytePipe] using hb
  · intro room hroom
    refine ⟨?_, ?_⟩
    · intro s hs
      have hinit : BeforeWait (((99 : Nat) : Int) + 1) progWc.arg0 progWc.argv 65536
          (List.replicate 65537 0)
          ⟨[.pipe 0, .fork (((99 : Nat) : Int) + 1),
              .waitpid (((99 : Nat) : Int) + 1) 0 (((99 : Nat) : Int) + 1),
              .execvp progWc.arg0 progWc.argv none],
            false, List.replicate 65537 0, false, [], [], false⟩ :=
        ⟨Or.inl rfl, rfl, rfl, rfl, rfl, rfl, Nat.zero_le _⟩
      obtain ⟨-, hc, hp, hg, he, -, -⟩ := beforeWait_reaches _ _ _ 65536 room hroom
        (List.replicate 65537 0) hbig _ s hinit hs
      exact ⟨hc, hp, hg, he⟩
    · obtain ⟨s, hs, hstuck, hpend, -, -, -, -, hscr⟩ :=
        flow_stalls (((99 : Nat) : Int) + 1) progWc.arg0 progWc.argv 65536 room hroom
          (List.replicate 65537 0) hbig
      exact ⟨s, hs, hstuck, hpend, hscr⟩

/-- C7 (amended): for a two-stage pipeline run by `runPgm` in a process whose standard
input and output are open, when `pipe`, `fork`, both `execvp` calls succeed and `waitpid`
returns the producer's identifier, whatever the payload and whatever room the kernel
gives the pipe: on every run the consumer's program runs only once the producer has
terminated, what it has read is an initial part, in order, of the payload, and it is
exactly the whole payload when it reads end of file; every run is finite.  Whenever the
pipe takes the whole payload while nothing is read from it, there is a run on which the
consumer's program reads the payload and then end of file, and the pipeline is never
stuck before that. -/
theorem C7_consumer_reads_after_producer_ends (env : Nat → StageEnv)
    (consumer producer : ProgramInvocation) (fds : FdTable) (pid status : Int) (k : Nat)
    (st : Int) (payload : List Nat) (room : List Nat → Bool)
    (hp : (env 0).pipe = .created) (hf : (env 0).fork = .child k)
    (hw : (env 0).wait = .reaped st) (hx0 : (env 0).exec = .replaced)
    (hx1 : (env 1).exec = .replaced)
    (h0 : lookup fds STDIN_FILENO ≠ none) (h1 : lookup fds STDOUT_FILENO ≠ none)
    (hfresh : some (File.pipeWrite 0) ∉ fds) :
    ∃ s0, flowInit (runPgm env (.link consumer (.last producer)) 0 fds pid status) payload
        = some s0
      ∧ (∀ s, Reaches room s0 s →
          (s.consuming = true → s.producerExited = true)
          ∧ (∃ rest, s.got ++ rest = payload)
          ∧ (s.eof = true → s.got = payload)
          ∧ ∀ t ∈ succs room s, flowMeasure t < flowMeasure s)
      ∧ (Accepts room payload →
          (∃ s, Reaches room s0 s ∧ s.eof = true ∧ s.got = payload)
          ∧ ∀ s, Reaches room s0 s → s.eof = true ∨ succs room s ≠ []) := by
  have hinit : FlowInv ((k : Int) + 1) consumer.arg0 consumer.argv payload
      ⟨[.pipe 0, .fork ((k : Int) + 1), .waitpid ((k : Int) + 1) 0 ((k : Int) + 1),
          .execvp consumer.arg0 consumer.argv none],
        false, payload, false, [], [], false⟩ := by
    refine ⟨by simp, Or.inl ⟨Or.inl rfl, rfl⟩, ?_, fun _ => ⟨rfl, rfl⟩, ?_⟩ <;> simp
  refine ⟨_, flowInit_two_stages env consumer producer fds pid status k st payload
    hp hf hw hx0 hx1 h0 h1 hfresh, ?_, ?_⟩
  · intro s hs
    obtain ⟨hpay, hphase, hexit, hidle, heof⟩ :=
      flowInv_reaches _ _ _ room payload _ s hinit hs
    have hrun : s.consuming = true → s.producerExited = true := by
      intro hc
      rcases hphase with ⟨-, h⟩ | ⟨-, h, -⟩ | ⟨-, -, h⟩
      · rw [hc] at h; exact absurd h (by simp)
      · rw [hc] at h; exact absurd h (by simp)
      · exact h
    refine ⟨hrun, ⟨s.buf ++ s.pending, by simpa using hpay⟩, ?_,
      fun t ht => flowMeasure_step room s t ht⟩
    intro he
    have hb := heof he
    have hc : s.consuming = true := by
      cases hcs : s.consuming with
      | true => rfl
      | false => rw [(hidle hcs).2] at he; exact absurd he (by simp)
    rw [hb, hexit (hrun hc)] at hpay
    simpa using hpay
  · intro hacc
    refine ⟨⟨_, flow_completes _ _ _ room payload hacc, rfl, rfl⟩, ?_⟩
    intro s hs
    exact flow_progress _ _ _ room payload hacc s
      (flowInv_reaches _ _ _ room payload _ s hinit hs)

/-- C7 (amended), at `ls | wc` with the three bytes of "hi\n" and a pipe that has room
while it holds fewer than 65536 bytes, which takes these three bytes. -/
theorem C7_consumer_reads_after_producer_ends_witness :
    Accepts (bytePipe 65536) [104, 105, 10]
    ∧ ∃ s0, flowInit (runPgm (fun _ => okStage) (.link progWc (.last progLs)) 0 stdTable 0 0)
        [104, 105, 10] = some s0
      ∧ (∀ s, Reaches (bytePipe 65536) s0 s →
          (s.consuming = true → s.producerExited = true)
          ∧ (∃ rest, s.got ++ rest = [104, 105, 10])
          ∧ (s.eof = true → s.got = [104, 105, 10])
          ∧ ∀ t ∈ succs (bytePipe 65536) s, flowMeasure t < flowMeasure s)
      ∧ (Accepts (bytePipe 65536) [104, 105, 10] →
          (∃ s, Reaches (bytePipe 65536) s0 s ∧ s.eof = true ∧ s.got = [104, 105, 10])
          ∧ ∀ s, Reaches (bytePipe 65536) s0 s → s.eof = true ∨ succs (bytePipe 65536) s ≠ []) :=
  ⟨by
      intro n hn
      simp only [bytePipe, List.length_take, decide_eq_true_eq]
      simp only [List.length_cons, List.length_nil] at hn ⊢
      omega,
    C7_consumer_reads_after_producer_ends (fun _ => okStage) progWc progLs stdTable 0 0 99 0
      [104, 105, 10] (bytePipe 65536) rfl rfl rfl rfl rfl (by decide) (by decide) (by decide)⟩

/-- C8 (the code at the failing input): on the line ` ls -l`, `stripwhite` calls
`strcpy(string, string + 1)` on overlapping areas, so the behaviour of the call is
undefined and the buffer need not hold `ls -l`, the line without its white-space prefix and
suffix.  When the library leaves `ls--l` in the buffer, that text is what `main` adds to the
history and hands to the parser. -/
theorem C8_leading_blank_overlapping_strcpy :
    leadingSpaces " ls -l".toList 0 = some 1
    ∧ strcpyTail " ls -l".toList 1 = none
    ∧ stripwhite " ls -l".toList = none
    ∧ stripSpec " ls -l".toList = "ls -l".toList
    ∧ (loopBody parseDemo (startup stdTable "/") (inputOk " ls -l")).shell.history
        = ["ls--l".toList]
    ∧ Event.parse "ls--l".toList
        ∈ (loopBody parseDemo (startup stdTable "/") (inputOk " ls -l")).events
    ∧ Event.parse "ls -l".toList
        ∉ (loopBody parseDemo (startup stdTable "/") (inputOk " ls -l")).events := by
  decide

/-- C9 (the code at the failing input): for `cd` without a path when the home directory
cannot be entered, `chdir` returns -1 and `main` reports nothing; the directory is
unchanged, no process is spawned and the shell goes on. -/
theorem C9_cd_home_failure_not_reported :
    (loopBody parseDemo (startup stdTable "/") (inputNoFile "cd")).events
      = [.parse "cd".toList, .chdir (some "/nonexistent") (-1)]
    ∧ (∀ msg, Event.perror msg
        ∉ (loopBody parseDemo (startup stdTable "/") (inputNoFile "cd")).events)
    ∧ (loopBody parseDemo (startup stdTable "/") (inputNoFile "cd")).shell.cwd = "/"
    ∧ (loopBody parseDemo (startup stdTable "/") (inputNoFile "cd")).spawned = []
    ∧ (loopBody parseDemo (startup stdTable "/") (inputNoFile "cd")).status = .running := by
  have h : (loopBody parseDemo (startup stdTable "/") (inputNoFile "cd")).events
      = [.parse "cd".toList, .chdir (some "/nonexistent") (-1)] := by decide
  refine ⟨h, ?_, by decide, by decide, by decide⟩
  intro msg
  rw [h]
  simp

/-- C10 (the code at the failing input): in the chain of `ls | wc` the forked process, which
executes `ls`, still holds descriptor 3 for the read end of the pipe when it replaces its
image; descriptor 3 is neither its standard input nor its standard output. -/
theorem C10_new_process_keeps_read_end :
    ∃ P Q, runPgm (fun _ => okStage) lsWc 0 stdTable 0 0 = [P, Q]
      ∧ Q.stage = progLs ∧ Q.outcome = .execed
      ∧ lookup Q.fds 3 = some (.pipeRead 0)
      ∧ (3 : Int) ≠ STDIN_FILENO ∧ (3 : Int) ≠ STDOUT_FILENO
      ∧ lookup P.fds 3 = none ∧ lookup P.fds 4 = none :=
  ⟨{ stage := progWc,
     events := [.pipe 0, .fork 100, .waitpid 100 0 100, .execvp "wc" ["wc"] none],
     fds := [some (.pipeRead 0), some (.inherited 1), some (.inherited 2), none, none],
     pid := 100, status := 0, outcome := .execed },
   { stage := progLs, events := [.execvp "ls" ["ls"] none],
     fds := [some (.inherited 0), some (.pipeWrite 0), some (.inherited 2),
       some (.pipeRead 0), none],
     pid := 0, status := 0, outcome := .execed },
   by decide, by decide, by decide, by decide, by decide, by decide, by decide, by decide⟩

end Lsh
